import Mathlib

/-!
Verification of the middle and back end of the SPL compiler
(symbol table, semantic analyzer, code generator, inliner).

The Python source is embedded shallowly:

* Python strings are modelled as `String` (original source names) or as
  `List Char` (IR instruction text, unique names), which is the underlying
  representation of `String`.
* Python dictionaries are modelled as association lists
  (`alookup` / `aupdate`); a scope frame never holds a key twice because
  `declare` refuses duplicates, exactly as in the source.
* Python exceptions are modelled with `Except`; each distinct `raise` site
  of the source gets its own constructor of a structured error type, so
  that statements can talk about which check fired without reproducing
  message strings verbatim.
* the analyzer annotates AST nodes in place (`symbol_info` on `VarNode`s,
  and a type map keyed by node identity that the code generator reads for
  binary operations); since every node object occurs exactly once in the
  tree, identity-keyed side tables are modelled as annotation slots on the
  nodes, and the analyzer returns the annotated copy of its input.
  Annotations that no later phase reads (the types recorded for atoms,
  unary operations and function calls) are not carried.
* numbers are rendered in decimal by `natChars`, written with explicit
  fuel so that every definition in this file evaluates by kernel
  reduction.
-/

namespace Spl

/-- Decimal digit characters of a natural number, with fuel.  For `fuel > n`
this agrees with the usual least-significant-digit-last decimal rendering
used by Python string formatting. -/
def natCharsAux : Nat → Nat → List Char
  | 0, _ => []
  | fuel + 1, n =>
    if n < 10 then [Nat.digitChar n]
    else natCharsAux fuel (n / 10) ++ [Nat.digitChar (n % 10)]

/-- Decimal rendering of a natural number (list of digit characters). -/
def natChars (n : Nat) : List Char := natCharsAux (n + 1) n

/-- Numeric value of a digit character. -/
def digitVal (c : Char) : Nat := c.toNat - 48

/-- Value of a list of digit characters read in base 10. -/
def charsVal (l : List Char) : Nat := l.foldl (fun a c => 10 * a + digitVal c) 0

/-- Lookup in an association list (model of Python dict access). -/
def alookup {α β : Type} [DecidableEq α] : List (α × β) → α → Option β
  | [], _ => none
  | (a, b) :: m, k => if a = k then some b else alookup m k

/-- Update in an association list (model of Python dict assignment). -/
def aupdate {α β : Type} [DecidableEq α] : List (α × β) → α → β → List (α × β)
  | [], k, v => [(k, v)]
  | (a, b) :: m, k, v => if a = k then (k, v) :: m else (a, b) :: aupdate m k v

/-- Errors of the semantic phase.  Each constructor corresponds to one
distinct `raise` site of `symbol_table.py` / `semantic_analyzer.py`. -/
inductive AErr where
  | noScopeToDeclare : AErr
  | duplicateDeclaration (name : String) : AErr
  | cannotExitScope : AErr
  | globalNameClash (names : List String) : AErr
  | paramShadowing (names : List String) : AErr
  | duplicateVariableDecl (name : String) : AErr
  | duplicateProcedureDecl (name : String) : AErr
  | duplicateFunctionDecl (name : String) : AErr
  | duplicateParameter (name : String) : AErr
  | duplicateLocal (name : String) : AErr
  | undefinedVariable (name : String) : AErr
  | undefinedFunction (name : String) : AErr
  | undefinedProcedure (name : String) : AErr
  | notAFunction (name kind : String) : AErr
  | notAProcedure (name kind : String) : AErr
  | assignToNonNumeric (name : String) : AErr
  | assignTypeMismatch (name got : String) : AErr
  | operandTypeMismatch (op got : String) : AErr
  | unknownUnaryOperator (op : String) : AErr
  | unknownBinaryOperator (op : String) : AErr
  | nonBooleanWhileCondition (got : String) : AErr
  | nonBooleanDoUntilCondition (got : String) : AErr
  | nonBooleanIfCondition (got : String) : AErr
  | nonNumericReturn (fname got : String) : AErr
deriving Repr, DecidableEq

/-- The `SymbolInfo` record of `symbol_table.py` (the `node_id` foreign key
and the `extra` dictionary carry no semantic content and are omitted). -/
structure SymbolInfo where
  name : String
  kind : String
  declType : Option String
  scopeLevel : Nat
  uniqueName : List Char
deriving Repr, DecidableEq

/-- One scope frame: a dictionary from original names to symbol records. -/
abbrev Frame := List (String × SymbolInfo)

/-- The symbol table state: the scope stack (head of the list is the TOP of
the Python stack, i.e. Python `_scopes[-1]`; the last element is Python
`_scopes[0]`) and the per-original-name unique-name counters.  The
`_global_procs` / `_global_funcs` dictionaries of the source are written
but never read, and are omitted. -/
structure SymTab where
  scopes : List Frame
  nameCounters : List (String × Nat)
deriving Repr

/-- A fresh symbol table (`SymbolTable()`). -/
def SymTab.empty : SymTab := ⟨[], []⟩

/-- Push a new scope (`enter_scope`; the `scope_kind` string is diagnostic
metadata only and is not modelled). -/
def enterScope (st : SymTab) : SymTab := { st with scopes := [] :: st.scopes }

/-- Pop the current scope (`exit_scope`). -/
def exitScope (st : SymTab) : Except AErr SymTab :=
  match st.scopes with
  | [] => .error .cannotExitScope
  | _ :: rest => .ok { st with scopes := rest }

/-- The unique name produced for original name `name` at counter value `c`:
Python `f"v_{name}_{c}"`. -/
def uniqueNameOf (name : String) (c : Nat) : List Char :=
  'v' :: '_' :: (name.toList ++ '_' :: natChars c)

/-- Current counter value for an original name (0 when never used). -/
def counterOf (st : SymTab) (name : String) : Nat :=
  (alookup st.nameCounters name).getD 0

/-- Allocate a fresh unique name (`_gen_unique_name`). -/
def genUniqueName (st : SymTab) (name : String) : List Char × SymTab :=
  let c := counterOf st name + 1
  (uniqueNameOf name c, { st with nameCounters := aupdate st.nameCounters name c })

/-- Declare a name in the top frame (`_declare`). -/
def declare (st : SymTab) (name kind : String) (declType : Option String) :
    Except AErr (SymbolInfo × SymTab) :=
  match st.scopes with
  | [] => .error .noScopeToDeclare
  | curr :: rest =>
    if (alookup curr name).isSome then .error (.duplicateDeclaration name)
    else
      let lvl := (curr :: rest).length
      let (u, st') := genUniqueName st name
      let info : SymbolInfo := ⟨name, kind, declType, lvl, u⟩
      .ok (info, { st' with scopes := ((name, info) :: curr) :: rest })

/-- Innermost-to-outermost lookup over a list of frames. -/
def lookupFrames : List Frame → String → Option SymbolInfo
  | [], _ => none
  | f :: rest, n =>
    match alookup f n with
    | some i => some i
    | none => lookupFrames rest n

/-- `SymbolTable.lookup`. -/
def lookupSym (st : SymTab) (name : String) : Option SymbolInfo :=
  lookupFrames st.scopes name

/-- Names present in a frame with a given kind. -/
def kindNames (f : Frame) (kind : String) : List String :=
  (f.filter (fun p => p.2.kind = kind)).map (fun p => p.1)

/-- The `check_no_global_name_clashes` check of `symbol_table.py`.  It reads
Python `_scopes[0]`, the OLDEST frame of the stack (the last element of our
`scopes` list), and checks the var/proc/func name partitions of that frame
for pairwise intersections. -/
def checkNoGlobalNameClashes (st : SymTab) : Except AErr Unit :=
  match st.scopes with
  | [] => .ok ()
  | _ =>
    let g := (st.scopes.getLast?).getD []
    let vars := kindNames g "var"
    let procs := kindNames g "proc"
    let funcs := kindNames g "func"
    let vf := vars.filter (fun n => n ∈ funcs)
    let vp := vars.filter (fun n => n ∈ procs)
    let fp := funcs.filter (fun n => n ∈ procs)
    if vf = [] ∧ vp = [] ∧ fp = [] then .ok ()
    else .error (.globalNameClash (vf ++ vp ++ fp))

/-- The `check_no_shadowing_of_params` check. -/
def checkNoShadowingOfParams (paramNames localNames : List String) :
    Except AErr Unit :=
  let sh := paramNames.filter (fun n => n ∈ localNames)
  if sh = [] then .ok () else .error (.paramShadowing sh)

/-- A symbol-table operation, for stating lifetime invariants of the table. -/
inductive TableOp where
  | enter : TableOp
  | exitOp : TableOp
  | declareOp (name kind : String) (declType : Option String) : TableOp

/-- Run a sequence of table operations from a given state, collecting the
unique names produced by the successful declarations (a failing operation
raises in Python before mutating anything, so it leaves the state
unchanged here). -/
def runOps : List TableOp → SymTab → SymTab × List (List Char)
  | [], st => (st, [])
  | op :: ops, st =>
    let step : SymTab × List (List Char) :=
      match op with
      | .enter => (enterScope st, [])
      | .exitOp =>
        match exitScope st with
        | .ok s => (s, [])
        | .error _ => (st, [])
      | .declareOp n k t =>
        match declare st n k t with
        | .ok (info, s) => (s, [info.uniqueName])
        | .error _ => (st, [])
    let rest := runOps ops step.1
    (rest.1, step.2 ++ rest.2)

/-! Inliner (`inline.py`).  The inliner works on the textual IR; instruction
lines are `List Char` and the regular expressions of the source are
implemented as recognizers below.  Each recognizer is an exact functional
rendering of the corresponding anchored Python pattern. -/

/-- One IR instruction line. -/
abbrev Line := List Char

/-- Characters matched by the regex class `\w`. -/
def isWordChar (c : Char) : Bool :=
  c.isAlpha || c.isDigit || c = '_'

/-- Python `str.strip()` whitespace. -/
def isPySpace (c : Char) : Bool :=
  c = ' ' || c = '\t' || c = '\n' || c = '\r' || c = '\x0b' || c = '\x0c'

/-- Python `str.strip()`. -/
def pyStrip (l : Line) : Line :=
  ((l.dropWhile isPySpace).reverse.dropWhile isPySpace).reverse

/-- Recognizer for `t\d+` (a temporary). -/
def isTTemp (s : Line) : Bool :=
  match s with
  | c :: ds => c = 't' && ds ≠ [] && ds.all Char.isDigit
  | [] => false

/-- Recognizer for `v_\w+_\d+` (a resolved unique variable name).  The
digit group of the anchored pattern is necessarily the maximal digit
suffix, because it is preceded by `_`, which is not a digit. -/
def isVName (s : Line) : Bool :=
  match s with
  | c1 :: c2 :: t =>
    c1 = 'v' && c2 = '_' &&
      (t.reverse.takeWhile Char.isDigit ≠ [] &&
        (match t.reverse.dropWhile Char.isDigit with
         | '_' :: pre => pre ≠ [] && pre.all isWordChar
         | _ => false))
  | _ => false

/-- Recognizer for `L\d+` (a code-generator label). -/
def isLLabel (s : Line) : Bool :=
  match s with
  | c :: ds => c = 'L' && ds ≠ [] && ds.all Char.isDigit
  | [] => false

/-- Match of `^REM (L\d+)$` (`rem_label_pattern`), returning the label. -/
def remMatch (l : Line) : Option Line :=
  match l with
  | 'R' :: 'E' :: 'M' :: ' ' :: rest =>
    if isLLabel rest then some rest else none
  | _ => none

/-- Match of `^(GOTO|IF .+ THEN) (L\d+)$` (`jump_pattern`), returning the
command part and the label.  The label group is the maximal digit suffix
preceded by `L` and a space; the command part is either the literal `GOTO`
or `IF <nonempty> THEN`. -/
def jumpMatch (l : Line) : Option (Line × Line) :=
  let r := l.reverse
  let ds := r.takeWhile Char.isDigit
  match r.dropWhile Char.isDigit with
  | 'L' :: ' ' :: rpre =>
    if ds = [] then none
    else
      let pre := rpre.reverse
      let lab := 'L' :: ds.reverse
      if pre = "GOTO".toList then some (pre, lab)
      else if "IF ".toList.isPrefixOf pre && " THEN".toList.isSuffixOf pre
          && decide (9 ≤ pre.length)
      then some (pre, lab)
      else none
  | _ => none

/-- Match of `^RETURN (t\d+|v_\w+_\d+)$` (`return_pattern`), returning the
returned place. -/
def returnMatch (l : Line) : Option Line :=
  match l with
  | 'R' :: 'E' :: 'T' :: 'U' :: 'R' :: 'N' :: ' ' :: rest =>
    if isTTemp rest || isVName rest then some rest else none
  | _ => none

/-- Match of `^(v_\w+_\d+) = (t\d+)$` (`assignment_pattern`), returning
(final variable, temporary). -/
def assignMatch (l : Line) : Option (Line × Line) :=
  let g1 := l.takeWhile (fun c => c ≠ ' ')
  if isVName g1 then
    match l.drop g1.length with
    | ' ' :: '=' :: ' ' :: rest =>
      if isTTemp rest then some (g1, rest) else none
    | _ => none
  else none

/-- Match of `^(t\d+|v_\w+_\d+) = CALL (v_\w+_\d+)\(([^)]*)\)$`
(`call_pattern`), returning (target, callee, raw argument text). -/
def callMatch (l : Line) : Option (Line × Line × Line) :=
  let g1 := l.takeWhile (fun c => c ≠ ' ')
  if isTTemp g1 || isVName g1 then
    match l.drop g1.length with
    | ' ' :: '=' :: ' ' :: 'C' :: 'A' :: 'L' :: 'L' :: ' ' :: rest =>
      let g2 := rest.takeWhile (fun c => c ≠ '(')
      if isVName g2 then
        match rest.drop g2.length with
        | '(' :: r4 =>
          match r4.getLast? with
          | some ')' =>
            if r4.dropLast.all (fun c => c ≠ ')') then some (g1, g2, r4.dropLast)
            else none
          | _ => none
        | _ => none
      else none
    | _ => none
  else none

/-- Split a line at commas (Python `str.split(',')`). -/
def splitComma : Line → List Line
  | [] => [[]]
  | c :: rest =>
    let r := splitComma rest
    if c = ',' then [] :: r
    else
      match r with
      | h :: t => (c :: h) :: t
      | [] => [[c]]

/-- Parse the raw argument text of a call:
`[arg.strip() for arg in args_str.split(",") if arg.strip()]`. -/
def parseArgs (s : Line) : List Line :=
  ((splitComma s).map pyStrip).filter (fun a => a ≠ [])

/-- Registry entry: `FunctionBodyInfo` of `inline.py`. -/
structure FunctionBodyInfo where
  name : Line
  params : List Line
  bodyIR : List Line
deriving Repr, DecidableEq

/-- The callee registry (`function_bodies` dictionary). -/
abbrev Registry := List (Line × FunctionBodyInfo)

/-- The suffix `_inline_<id>` appended to labels of an inlined body copy. -/
def inlineSuffix (id : Nat) : Line := "_inline_".toList ++ natChars id

/-- One step of the first pass of `_make_labels_unique`: record the label
defined by a `REM L<n>` line, unless already recorded. -/
def blmStep (id : Nat) (m : List (Line × Line)) (l : Line) : List (Line × Line) :=
  match remMatch l with
  | some lab =>
    if (alookup m lab).isSome then m
    else m ++ [(lab, lab ++ inlineSuffix id)]
  | none => m

/-- First pass of `_make_labels_unique`: collect the labels defined by
`REM L<n>` lines, mapping each to its suffixed version. -/
def buildLabelMap (ir : List Line) (id : Nat) : List (Line × Line) :=
  ir.foldl (blmStep id) []

/-- Second pass of `_make_labels_unique`: rewrite one line using the label
map (labels absent from the map are kept unchanged). -/
def relabelLine (m : List (Line × Line)) (l : Line) : Line :=
  match remMatch l with
  | some lab => "REM ".toList ++ (alookup m lab).getD lab
  | none =>
    match jumpMatch l with
    | some (cmd, lab) => cmd ++ ' ' :: (alookup m lab).getD lab
    | none => l

/-- `_make_labels_unique`. -/
def makeLabelsUnique (ir : List Line) (id : Nat) : List Line :=
  ir.map (relabelLine (buildLabelMap ir id))

/-- The `RETURN` rewriting step of `_adapt_body` applied to one line:
a matched `RETURN <place>` becomes `<target> = <place>` when a return
target is present and is dropped when there is none; other lines pass
through. -/
def rewriteReturn (returnTarget : Option Line) (l : Line) : List Line :=
  match returnMatch l with
  | some place =>
    match returnTarget with
    | some t => [t ++ " = ".toList ++ place]
    | none => []
  | none => [l]

/-- `_adapt_body`: rename labels, then rewrite `RETURN` lines. -/
def adaptBody (bodyIR : List Line) (returnTarget : Option Line) (id : Nat) :
    List Line :=
  (makeLabelsUnique bodyIR id).flatMap (rewriteReturn returnTarget)

/-- The `line.strip().startswith("RETURN")` test of `inline_calls`. -/
def hasReturnLine (l : Line) : Bool :=
  "RETURN".toList.isPrefixOf (pyStrip l)

/-- The parameter-binding assignments emitted before an inlined body. -/
def paramAssignments (params args : List Line) : List Line :=
  List.zipWith (fun p a => p ++ " = ".toList ++ a) params args

/-- Error raised for an inline-time argument count mismatch. -/
inductive InlineErr where
  | argumentCountMismatch (callee : Line) (expected got : Nat) : InlineErr
deriving Repr, DecidableEq

/-- The one-instruction lookahead of `inline_calls`: when the instruction
after the call matches `assignment_pattern` and copies the call's target
temporary, the assigned variable becomes the return target and the copy
instruction is skipped. -/
def peekSkip (tgt : Line) (rest : List Line) : Option Line :=
  match rest with
  | next :: _ =>
    match assignMatch next with
    | some (fv, src) => if src = tgt then some fv else none
    | none => none
  | [] => none

/-- The body of `Inliner.inline_calls`, with the call-site counter `k`
threaded explicitly (`self._inline_counter`).  The source walks the list
with an index and a one-instruction lookahead; the lookahead decides
whether the following `<finalVar> = <target>` copy is skipped. -/
def inlineGo (reg : Registry) : Nat → List Line → Except InlineErr (List Line)
  | _, [] => .ok []
  | k, line :: rest =>
    match callMatch line with
    | none => (inlineGo reg k rest).map (fun o => line :: o)
    | some (tgt, callee, argsStr) =>
      match alookup reg callee with
      | none => (inlineGo reg k rest).map (fun o => line :: o)
      | some info =>
        let callArgs := parseArgs argsStr
        let hasRet := info.bodyIR.any hasReturnLine
        if callArgs.length ≠ info.params.length then
          .error (.argumentCountMismatch callee info.params.length callArgs.length)
        else
          let skipTo : Option Line := if hasRet then peekSkip tgt rest else none
          match skipTo with
          | some fv =>
            match rest with
            | _ :: rest2 =>
              (inlineGo reg (k + 1) rest2).map
                (fun o => paramAssignments info.params callArgs ++
                  adaptBody info.bodyIR (some fv) (k + 1) ++ o)
            | [] =>
              .ok (paramAssignments info.params callArgs ++
                adaptBody info.bodyIR (some fv) (k + 1))
          | none =>
            let rt : Option Line := if hasRet then some tgt else none
            (inlineGo reg (k + 1) rest).map
              (fun o => paramAssignments info.params callArgs ++
                adaptBody info.bodyIR rt (k + 1) ++ o)

/-- `Inliner.inline_calls` on a fresh `Inliner` (call-site counter 0). -/
def inlineCalls (reg : Registry) (ir : List Line) : Except InlineErr (List Line) :=
  inlineGo reg 0 ir

/-! AST (`ast_nodes.py`).  The `symbol_info` slot mutated onto `VarNode`s by
the analyzer is an explicit optional field; a tree fresh from the parser has
it set to `none` everywhere. -/

/-- `VarNode`, with its `symbol_info` annotation slot. -/
structure VarNode where
  name : String
  symbolInfo : Option SymbolInfo := none

/-- `AtomNode`: an integer literal or a variable reference. -/
inductive AtomNode where
  | num (value : Int) : AtomNode
  | var (v : VarNode) : AtomNode

mutual
/-- `TermNode`: wraps an atom or a parenthesized term. -/
inductive TermNode where
  | atom (a : AtomNode) : TermNode
  | paren (p : ParenTermNode) : TermNode

/-- `ParenTermNode` together with the `UnaryOperationNode` /
`BinaryOperationNode` it wraps.  The binary node carries the type recorded
for it in the analyzer's identity-keyed `node_types` map (the only entry of
that map the code generator reads). -/
inductive ParenTermNode where
  | unop (operator : String) (operand : TermNode) : ParenTermNode
  | binop (leftOperand : TermNode) (operator : String) (rightOperand : TermNode)
      (ty : Option String) : ParenTermNode
end

/-- `FunctionCallNode` (its `InputNode` argument list holds 0-3 atoms). -/
structure FunctionCallNode where
  name : VarNode
  arguments : List AtomNode

/-- The right-hand side of an assignment: the three node classes accepted by
`_visit_rhs`. -/
inductive RhsNode where
  | atom (a : AtomNode) : RhsNode
  | call (c : FunctionCallNode) : RhsNode
  | paren (p : ParenTermNode) : RhsNode

mutual
/-- Instruction nodes. -/
inductive Instr where
  | halt : Instr
  | printStr (s : String) : Instr
  | printAtom (a : AtomNode) : Instr
  | assign (varRef : VarNode) (rhs : RhsNode) : Instr
  | procCall (name : VarNode) (arguments : List AtomNode) : Instr
  | whileLoop (condition : TermNode) (body : Algorithm) : Instr
  | doUntil (body : Algorithm) (condition : TermNode) : Instr
  | ifBranch (condition : TermNode) (thenBranch : Algorithm)
      (elseBranch : OptAlgorithm) : Instr

/-- `AlgorithmNode`: a sequence of instructions. -/
inductive Algorithm where
  | nil : Algorithm
  | cons (i : Instr) (rest : Algorithm) : Algorithm

/-- The `Optional[AlgorithmNode]` else-branch of `IfBranchNode`, spelled as
a mutual inductive so that all recursions stay structural. -/
inductive OptAlgorithm where
  | none : OptAlgorithm
  | some (a : Algorithm) : OptAlgorithm
end

/-- `BodyNode`: local declarations plus the body algorithm. -/
structure BodyNode where
  locals : List VarNode
  algorithm : Algorithm

/-- `ProcedureDefNode`. -/
structure ProcedureDefNode where
  name : VarNode
  params : List VarNode
  body : BodyNode

/-- `FunctionDefNode` (a procedure plus a trailing return atom). -/
structure FunctionDefNode where
  name : VarNode
  params : List VarNode
  body : BodyNode
  returnAtom : AtomNode

/-- `MainProgNode`. -/
structure MainProgNode where
  locals : List VarNode
  algorithm : Algorithm

/-- `ProgramNode`. -/
structure ProgramNode where
  globals : List VarNode
  procs : List ProcedureDefNode
  funcs : List FunctionDefNode
  main : MainProgNode

/-! Semantic analyzer (`semantic_analyzer.py`).  Every visitor returns the
annotated copy of its node (modelling the in-place mutation of the Python
tree) and, for expressions, the computed type string. -/

/-- `_visit_atom`: resolve a variable reference (no kind check is performed
here) and return type `numeric`. -/
def visitAtomA (st : SymTab) : AtomNode → Except AErr (AtomNode × String)
  | .num n => .ok (.num n, "numeric")
  | .var v =>
    match lookupSym st v.name with
    | none => .error (.undefinedVariable v.name)
    | some info => .ok (.var { v with symbolInfo := some info }, "numeric")

/-- `_visit_input`: visit 0-3 call arguments. -/
def visitInputA (st : SymTab) : List AtomNode → Except AErr (List AtomNode)
  | [] => .ok []
  | a :: rest => do
    let (a', _) ← visitAtomA st a
    let rest' ← visitInputA st rest
    .ok (a' :: rest')

/-- `_visit_function_call`: the callee must resolve and have kind `func`. -/
def visitFunctionCallA (st : SymTab) (c : FunctionCallNode) :
    Except AErr (FunctionCallNode × String) :=
  match lookupSym st c.name.name with
  | none => .error (.undefinedFunction c.name.name)
  | some info =>
    if info.kind ≠ "func" then .error (.notAFunction c.name.name info.kind)
    else do
      let args' ← visitInputA st c.arguments
      .ok (⟨{ c.name with symbolInfo := some info }, args'⟩, "numeric")

mutual
/-- `_visit_term`. -/
def visitTermA (st : SymTab) : TermNode → Except AErr (TermNode × String)
  | .atom a => (visitAtomA st a).map (fun r => (.atom r.1, r.2))
  | .paren p => (visitParenTermA st p).map (fun r => (.paren r.1, r.2))

/-- `_visit_paren_term` dispatching to `_visit_unary_op` /
`_visit_binary_op`, with the type rules of the source.  The resulting type
of a binary operation is recorded on the node (the `node_types` entry). -/
def visitParenTermA (st : SymTab) : ParenTermNode → Except AErr (ParenTermNode × String)
  | .unop op operand => do
    let (o', ot) ← visitTermA st operand
    if op = "neg" then
      if ot ≠ "numeric" then .error (.operandTypeMismatch op ot)
      else .ok (.unop op o', "numeric")
    else if op = "not" then
      if ot ≠ "boolean" then .error (.operandTypeMismatch op ot)
      else .ok (.unop op o', "boolean")
    else .error (.unknownUnaryOperator op)
  | .binop l op r _ => do
    let (l', lt) ← visitTermA st l
    let (r', rt) ← visitTermA st r
    if op = "plus" ∨ op = "minus" ∨ op = "mult" ∨ op = "div" then
      if lt ≠ "numeric" then .error (.operandTypeMismatch op lt)
      else if rt ≠ "numeric" then .error (.operandTypeMismatch op rt)
      else .ok (.binop l' op r' (some "numeric"), "numeric")
    else if op = "eq" ∨ op = ">" then
      if lt ≠ "numeric" then .error (.operandTypeMismatch op lt)
      else if rt ≠ "numeric" then .error (.operandTypeMismatch op rt)
      else .ok (.binop l' op r' (some "boolean"), "boolean")
    else if op = "and" ∨ op = "or" then
      if lt ≠ "boolean" then .error (.operandTypeMismatch op lt)
      else if rt ≠ "boolean" then .error (.operandTypeMismatch op rt)
      else .ok (.binop l' op r' (some "boolean"), "boolean")
    else .error (.unknownBinaryOperator op)
end

/-- `_visit_rhs`. -/
def visitRhsA (st : SymTab) : RhsNode → Except AErr (RhsNode × String)
  | .atom a => (visitAtomA st a).map (fun r => (.atom r.1, r.2))
  | .call c => (visitFunctionCallA st c).map (fun r => (.call r.1, r.2))
  | .paren p => (visitParenTermA st p).map (fun r => (.paren r.1, r.2))

mutual
/-- `_visit_instruction` with the per-statement checks of the source. -/
def visitInstrA (st : SymTab) : Instr → Except AErr Instr
  | .halt => .ok .halt
  | .printStr s => .ok (.printStr s)
  | .printAtom a => (visitAtomA st a).map (fun r => .printAtom r.1)
  | .assign v rhs =>
    match lookupSym st v.name with
    | none => .error (.undefinedVariable v.name)
    | some info =>
      let v' : VarNode := { v with symbolInfo := some info }
      if info.declType ≠ some "numeric" then .error (.assignToNonNumeric v.name)
      else do
        let (rhs', rt) ← visitRhsA st rhs
        if rt ≠ "numeric" then .error (.assignTypeMismatch v.name rt)
        else .ok (.assign v' rhs')
  | .procCall n args =>
    match lookupSym st n.name with
    | none => .error (.undefinedProcedure n.name)
    | some info =>
      if info.kind ≠ "proc" then .error (.notAProcedure n.name info.kind)
      else do
        let args' ← visitInputA st args
        .ok (.procCall { n with symbolInfo := some info } args')
  | .whileLoop cond body => do
    let (c', ct) ← visitTermA st cond
    if ct ≠ "boolean" then .error (.nonBooleanWhileCondition ct)
    else do
      let body' ← visitAlgoA st body
      .ok (.whileLoop c' body')
  | .doUntil body cond => do
    let body' ← visitAlgoA st body
    let (c', ct) ← visitTermA st cond
    if ct ≠ "boolean" then .error (.nonBooleanDoUntilCondition ct)
    else .ok (.doUntil body' c')
  | .ifBranch cond thenB elseB => do
    let (c', ct) ← visitTermA st cond
    if ct ≠ "boolean" then .error (.nonBooleanIfCondition ct)
    else do
      let then' ← visitAlgoA st thenB
      let else' ← visitOptAlgoA st elseB
      .ok (.ifBranch c' then' else')

/-- `_visit_algorithm`. -/
def visitAlgoA (st : SymTab) : Algorithm → Except AErr Algorithm
  | .nil => .ok .nil
  | .cons i rest => do
    let i' ← visitInstrA st i
    let rest' ← visitAlgoA st rest
    .ok (.cons i' rest')

/-- Visit of the optional else branch. -/
def visitOptAlgoA (st : SymTab) : OptAlgorithm → Except AErr OptAlgorithm
  | .none => .ok .none
  | .some a => (visitAlgoA st a).map .some
end

/-- `_visit_variable_decls`: declare a list of variables, rejecting a name
repeated inside the list, then declaring each as a numeric `var`. -/
def declareVarListA : SymTab → List VarNode → List String → Except AErr SymTab
  | st, [], _ => .ok st
  | st, v :: rest, seen =>
    if v.name ∈ seen then .error (.duplicateVariableDecl v.name)
    else do
      let (_, st') ← declare st v.name "var" (some "numeric")
      declareVarListA st' rest (v.name :: seen)

/-- `_declare_procedures`: declare all procedure signatures. -/
def declareProcSigsA : SymTab → List ProcedureDefNode → List String → Except AErr SymTab
  | st, [], _ => .ok st
  | st, d :: rest, seen =>
    if d.name.name ∈ seen then .error (.duplicateProcedureDecl d.name.name)
    else do
      let (_, st') ← declare st d.name.name "proc" none
      declareProcSigsA st' rest (d.name.name :: seen)

/-- `_declare_functions`: declare all function signatures. -/
def declareFuncSigsA : SymTab → List FunctionDefNode → List String → Except AErr SymTab
  | st, [], _ => .ok st
  | st, d :: rest, seen =>
    if d.name.name ∈ seen then .error (.duplicateFunctionDecl d.name.name)
    else do
      let (_, st') ← declare st d.name.name "func" none
      declareFuncSigsA st' rest (d.name.name :: seen)

/-- `_visit_parameters`: declare the parameters, collecting their names. -/
def visitParamsA : SymTab → List VarNode → List String → Except AErr (List String × SymTab)
  | st, [], _ => .ok ([], st)
  | st, v :: rest, seen =>
    if v.name ∈ seen then .error (.duplicateParameter v.name)
    else do
      let (_, st') ← declare st v.name "param" (some "numeric")
      let (names, st'') ← visitParamsA st' rest (v.name :: seen)
      .ok (v.name :: names, st'')

/-- The local-declaration half of `_visit_body`. -/
def declareLocalsA : SymTab → List VarNode → List String → Except AErr (List String × SymTab)
  | st, [], _ => .ok ([], st)
  | st, v :: rest, seen =>
    if v.name ∈ seen then .error (.duplicateLocal v.name)
    else do
      let (_, st') ← declare st v.name "var" (some "numeric")
      let (names, st'') ← declareLocalsA st' rest (v.name :: seen)
      .ok (v.name :: names, st'')

/-- `_visit_body`: declare locals, check parameter shadowing, then visit the
algorithm. -/
def visitBodyA (st : SymTab) (b : BodyNode) (paramNames : List String) :
    Except AErr (BodyNode × SymTab) := do
  let (localNames, st1) ← declareLocalsA st b.locals []
  let _ ← checkNoShadowingOfParams paramNames localNames
  let algo' ← visitAlgoA st1 b.algorithm
  .ok (⟨b.locals, algo'⟩, st1)

/-- `_visit_procedure_def`. -/
def visitProcedureDefA (st : SymTab) (d : ProcedureDefNode) :
    Except AErr (ProcedureDefNode × SymTab) := do
  let st1 := enterScope st
  let (paramNames, st2) ← visitParamsA st1 d.params []
  let (body', st3) ← visitBodyA st2 d.body paramNames
  let st4 ← exitScope st3
  .ok (⟨d.name, d.params, body'⟩, st4)

/-- `_visit_function_def` (adds the numeric-return check on the trailing
return atom, performed before the scope is exited). -/
def visitFunctionDefA (st : SymTab) (d : FunctionDefNode) :
    Except AErr (FunctionDefNode × SymTab) := do
  let st1 := enterScope st
  let (paramNames, st2) ← visitParamsA st1 d.params []
  let (body', st3) ← visitBodyA st2 d.body paramNames
  let (ra', rt) ← visitAtomA st3 d.returnAtom
  if rt ≠ "numeric" then .error (.nonNumericReturn d.name.name rt)
  else do
    let st4 ← exitScope st3
    .ok (⟨d.name, d.params, body', ra'⟩, st4)

/-- `_visit_procedure_defs`. -/
def visitProcedureDefsA : SymTab → List ProcedureDefNode →
    Except AErr (List ProcedureDefNode × SymTab)
  | st, [] => .ok ([], st)
  | st, d :: rest => do
    let (d', st1) ← visitProcedureDefA st d
    let (rest', st2) ← visitProcedureDefsA st1 rest
    .ok (d' :: rest', st2)

/-- `_visit_function_defs`. -/
def visitFunctionDefsA : SymTab → List FunctionDefNode →
    Except AErr (List FunctionDefNode × SymTab)
  | st, [] => .ok ([], st)
  | st, d :: rest => do
    let (d', st1) ← visitFunctionDefA st d
    let (rest', st2) ← visitFunctionDefsA st1 rest
    .ok (d' :: rest', st2)

/-- `_visit_main_prog`. -/
def visitMainProgA (st : SymTab) (m : MainProgNode) :
    Except AErr (MainProgNode × SymTab) := do
  let st1 := enterScope st
  let st2 ← declareVarListA st1 m.locals []
  let algo' ← visitAlgoA st2 m.algorithm
  let st3 ← exitScope st2
  .ok (⟨m.locals, algo'⟩, st3)

/-- The global declaration phase of `_visit_program`: when called on a fresh
table an extra `Global` scope is pushed first (`is_toplevel_call`), then a
second `Global` scope is pushed unconditionally, and all global variables,
procedure signatures and function signatures are declared (into the second,
inner frame). -/
def globalPhase (st0 : SymTab) (p : ProgramNode) : Except AErr SymTab := do
  let st1 := if st0.scopes.length = 0 then enterScope st0 else st0
  let st2 := enterScope st1
  let st3 ← declareVarListA st2 p.globals []
  let st4 ← declareProcSigsA st3 p.procs []
  let st5 ← declareFuncSigsA st4 p.funcs []
  .ok st5

/-- `_visit_program`: global phase, clash check, then the three body
phases, then one `exit_scope`. -/
def visitProgramA (st0 : SymTab) (p : ProgramNode) :
    Except AErr (ProgramNode × SymTab) := do
  let st ← globalPhase st0 p
  let _ ← checkNoGlobalNameClashes st
  let (procs', st1) ← visitProcedureDefsA st p.procs
  let (funcs', st2) ← visitFunctionDefsA st1 p.funcs
  let (main', st3) ← visitMainProgA st2 p.main
  let st4 ← exitScope st3
  .ok (⟨p.globals, procs', funcs', main'⟩, st4)

/-- `SemanticAnalyzer.analyze` on a fresh analyzer (fresh symbol table). -/
def analyze (p : ProgramNode) : Except AErr (ProgramNode × SymTab) :=
  visitProgramA SymTab.empty p

/-! Code generator (`code_gen.py`). -/

/-- Errors of the code generator.  Each constructor corresponds to one
`raise CodeGenError` site reachable through the node classes of the AST. -/
inductive CGErr where
  | missingSymbolInfo (name : String) : CGErr
  | notOnlyInConditions : CGErr
  | unknownUnaryOperator (op : String) : CGErr
  | opOnlyInConditions (op : String) : CGErr
  | unknownBinaryOperator (op : String) : CGErr
  | arithAsCondition (op : String) : CGErr
  | unexpectedNodeInCondition : CGErr
  | badProcSymbol (name : String) : CGErr
  | badFuncSymbol (name : String) : CGErr
deriving Repr, DecidableEq

/-- The mutable state of a `CodeGenerator`: emitted instructions and the two
fresh-name counters. -/
structure CG where
  ir : List Line
  tempCounter : Nat
  labelCounter : Nat
deriving Repr, DecidableEq

/-- State at the start of `generate`. -/
def CG.start : CG := ⟨[], 0, 0⟩

/-- `_new_temp`. -/
def newTemp (g : CG) : Line × CG :=
  ('t' :: natChars (g.tempCounter + 1), { g with tempCounter := g.tempCounter + 1 })

/-- `_new_label`. -/
def newLabel (g : CG) : Line × CG :=
  ('L' :: natChars (g.labelCounter + 1), { g with labelCounter := g.labelCounter + 1 })

/-- `_emit`. -/
def emit (g : CG) (l : Line) : CG := { g with ir := g.ir ++ [l] }

/-- Decimal rendering of a Python integer. -/
def intChars (i : Int) : Line :=
  if i < 0 then '-' :: natChars i.natAbs else natChars i.natAbs

/-- `_visit_VarNode`: read the unique name off the annotation. -/
def cgVar (v : VarNode) : Except CGErr Line :=
  match v.symbolInfo with
  | none => .error (.missingSymbolInfo v.name)
  | some info => .ok info.uniqueName

/-- `_visit_AtomNode`: a variable atom is its unique name; a literal atom is
materialized into a fresh temporary. -/
def cgAtom (g : CG) : AtomNode → Except CGErr (Line × CG)
  | .var v => (cgVar v).map (fun u => (u, g))
  | .num n =>
    let (t, g1) := newTemp g
    .ok (t, emit g1 (t ++ " = ".toList ++ intChars n))

/-- The `op_map` of `_visit_BinaryOperationNode`. -/
def opSymbol (op : String) : Option Char :=
  if op = "plus" then some '+'
  else if op = "minus" then some '-'
  else if op = "mult" then some '*'
  else if op = "div" then some '/'
  else if op = "eq" then some '='
  else if op = ">" then some '>'
  else none

mutual
/-- `_visit_TermNode`. -/
def cgTerm (g : CG) : TermNode → Except CGErr (Line × CG)
  | .atom a => cgAtom g a
  | .paren p => cgParen g p

/-- `_visit_ParenTermNode` dispatching to `_visit_UnaryOperationNode` /
`_visit_BinaryOperationNode`. -/
def cgParen (g : CG) : ParenTermNode → Except CGErr (Line × CG)
  | .unop op operand => do
    let (pl, g1) ← cgTerm g operand
    let (res, g2) := newTemp g1
    if op = "neg" then .ok (res, emit g2 (res ++ " = - ".toList ++ pl))
    else if op = "not" then .error .notOnlyInConditions
    else .error (.unknownUnaryOperator op)
  | .binop l op r ty =>
    if ty = some "boolean" ∧ (op = "and" ∨ op = "or") then
      .error (.opOnlyInConditions op)
    else do
      let (lp, g1) ← cgTerm g l
      let (rp, g2) ← cgTerm g1 r
      let (res, g3) := newTemp g2
      match opSymbol op with
      | some s =>
        .ok (res, emit g3 (res ++ " = ".toList ++ lp ++ ' ' :: s :: ' ' :: rp))
      | none => .error (.unknownBinaryOperator op)
end

/-- Visit a list of call arguments, collecting their places. -/
def cgArgs (g : CG) : List AtomNode → Except CGErr (List Line × CG)
  | [] => .ok ([], g)
  | a :: rest => do
    let (pl, g1) ← cgAtom g a
    let (rest', g2) ← cgArgs g1 rest
    .ok (pl :: rest', g2)

/-- Python `", ".join`. -/
def joinComma : List Line → Line
  | [] => []
  | [a] => a
  | a :: rest => a ++ ", ".toList ++ joinComma rest

/-- `_visit_FunctionCallNode`. -/
def cgFunctionCall (g : CG) (c : FunctionCallNode) : Except CGErr (Line × CG) := do
  let (argPlaces, g1) ← cgArgs g c.arguments
  match c.name.symbolInfo with
  | some info =>
    if info.kind = "func" then
      let (res, g2) := newTemp g1
      .ok (res, emit g2 (res ++ " = CALL ".toList ++ info.uniqueName ++
        '(' :: (joinComma argPlaces ++ [')'])))
    else .error (.badFuncSymbol c.name.name)
  | none => .error (.badFuncSymbol c.name.name)

/-- `_visit` on a right-hand side (generic dispatch of the source). -/
def cgRhs (g : CG) : RhsNode → Except CGErr (Line × CG)
  | .atom a => cgAtom g a
  | .call c => cgFunctionCall g c
  | .paren p => cgParen g p

mutual
/-- `_generate_conditional_jump` on a `TermNode` condition (the `negate`
parameter of the source is never passed and defaults to `False`; it is
omitted). -/
def cgCondJumpT (g : CG) (cond : TermNode) (lt lf : Line) : Except CGErr CG :=
  match cond with
  | .paren p => cgCondJumpP g p lt lf
  | .atom a => do
    let (ap, g1) ← cgAtom g a
    .ok (emit g1 ("IF ".toList ++ ap ++ " > 0 THEN ".toList ++ lt))

/-- `_generate_conditional_jump`, inner dispatch on the wrapped operation. -/
def cgCondJumpP (g : CG) (p : ParenTermNode) (lt lf : Line) : Except CGErr CG :=
  match p with
  | .unop op operand =>
    if op = "not" then cgCondJumpT g operand lf lt
    else .error .unexpectedNodeInCondition
  | .binop l op r _ =>
    if op = "and" then
      let (mid, g1) := newLabel g
      do
        let g2 ← cgCondJumpT g1 l mid lf
        let g3 := emit g2 ("REM ".toList ++ mid)
        cgCondJumpT g3 r lt lf
    else if op = "or" then
      let (mid, g1) := newLabel g
      do
        let g2 ← cgCondJumpT g1 l lt mid
        let g3 := emit g2 ("REM ".toList ++ mid)
        cgCondJumpT g3 r lt lf
    else if op = "eq" ∨ op = ">" then do
      let (lp, g1) ← cgTerm g l
      let (rp, g2) ← cgTerm g1 r
      let s : Char := if op = "eq" then '=' else '>'
      .ok (emit g2 ("IF ".toList ++ lp ++ ' ' :: s :: ' ' :: rp ++
        " THEN ".toList ++ lt))
    else .error (.arithAsCondition op)
end

mutual
/-- Instruction-level code generation (`_visit_*` for statement nodes). -/
def cgInstr (g : CG) : Instr → Except CGErr CG
  | .halt => .ok (emit g "STOP".toList)
  | .printStr s => .ok (emit g ("PRINT \"".toList ++ s.toList ++ ['"']))
  | .printAtom a => do
    let (pl, g1) ← cgAtom g a
    .ok (emit g1 ("PRINT ".toList ++ pl))
  | .assign v rhs => do
    let (pl, g1) ← cgRhs g rhs
    let u ← cgVar v
    .ok (emit g1 (u ++ " = ".toList ++ pl))
  | .procCall n args => do
    let (argPlaces, g1) ← cgArgs g args
    match n.symbolInfo with
    | some info =>
      if info.kind = "proc" then
        let (dummy, g2) := newTemp g1
        .ok (emit g2 (dummy ++ " = CALL ".toList ++ info.uniqueName ++
          '(' :: (joinComma argPlaces ++ [')'])))
      else .error (.badProcSymbol n.name)
    | none => .error (.badProcSymbol n.name)
  | .whileLoop cond body =>
    let (lcond, g1) := newLabel g
    let (lbody, g2) := newLabel g1
    let (lexit, g3) := newLabel g2
    let g4 := emit g3 ("REM ".toList ++ lcond)
    do
      let g5 ← cgCondJumpT g4 cond lbody lexit
      let g6 := emit g5 ("REM ".toList ++ lbody)
      let g7 ← cgAlgo g6 body
      let g8 := emit g7 ("GOTO ".toList ++ lcond)
      .ok (emit g8 ("REM ".toList ++ lexit))
  | .doUntil body cond =>
    let (lbody, g1) := newLabel g
    let (_lexit, g2) := newLabel g1
    let g3 := emit g2 ("REM ".toList ++ lbody)
    do
      let g4 ← cgAlgo g3 body
      let (cp, g5) ← cgTerm g4 cond
      .ok (emit g5 ("IF ".toList ++ cp ++ " = 0 THEN ".toList ++ lbody))
  | .ifBranch cond thenB elseB =>
    let (lthen, g1) := newLabel g
    match elseB with
    | .some els =>
      let (lelse, g2) := newLabel g1
      let (lexit, g3) := newLabel g2
      do
        let g4 ← cgCondJumpT g3 cond lthen lelse
        let g5 ← cgAlgo g4 els
        let g6 := emit g5 ("GOTO ".toList ++ lexit)
        let g7 := emit g6 ("REM ".toList ++ lthen)
        let g8 ← cgAlgo g7 thenB
        .ok (emit g8 ("REM ".toList ++ lexit))
    | .none =>
      let (lexit, g2) := newLabel g1
      do
        let g3 ← cgCondJumpT g2 cond lthen lexit
        let g4 := emit g3 ("GOTO ".toList ++ lexit)
        let g5 := emit g4 ("REM ".toList ++ lthen)
        let g6 ← cgAlgo g5 thenB
        .ok (emit g6 ("REM ".toList ++ lexit))

/-- `_visit_AlgorithmNode`. -/
def cgAlgo (g : CG) : Algorithm → Except CGErr CG
  | .nil => .ok g
  | .cons i rest => do
    let g1 ← cgInstr g i
    cgAlgo g1 rest
end

/-- `CodeGenerator.generate`: reset the state and lower `ast.main` (which
visits its algorithm). -/
def generate (p : ProgramNode) : Except CGErr (List Line) :=
  (cgAlgo CG.start p.main.algorithm).map CG.ir

/-- The analysis-then-generation pipeline: `none` when semantic analysis
rejects the program, otherwise the code generator's result on the
annotated tree. -/
def pipelineIR (p : ProgramNode) : Option (Except CGErr (List Line)) :=
  match analyze p with
  | .ok (p', _) => some (generate p')
  | .error _ => none

/-- The error of a failed analysis, if any. -/
def analyzeErr (p : ProgramNode) : Option AErr :=
  match analyze p with
  | .error e => some e
  | .ok _ => none

/-! Auxiliary definitions used by the statements of the claims. -/

/-- Whether an analysis outcome is a `GlobalNameClash` error (the error
produced by `check_no_global_name_clashes`). -/
def isGlobalClashErr : Option AErr → Bool
  | some (.globalNameClash _) => true
  | _ => false

/-- Whether an error belongs to the duplicate-declaration family (raised at
declaration time, by the symbol table or by the analyzer's own per-list
duplicate checks). -/
def isDuplicateFamilyErr : AErr → Bool
  | .duplicateDeclaration _ => true
  | .duplicateVariableDecl _ => true
  | .duplicateProcedureDecl _ => true
  | .duplicateFunctionDecl _ => true
  | _ => false

/-- Names visible in the top frame of the scope stack. -/
def topNames (st : SymTab) : List String :=
  match st.scopes with
  | f :: _ => f.map Prod.fst
  | [] => []

/-- Original names of the global variable declarations of a program. -/
def globalVarNames (p : ProgramNode) : List String := p.globals.map (fun v => v.name)

/-- Original names of the procedure definitions of a program. -/
def globalProcNames (p : ProgramNode) : List String := p.procs.map (fun d => d.name.name)

/-- Original names of the function definitions of a program. -/
def globalFuncNames (p : ProgramNode) : List String := p.funcs.map (fun d => d.name.name)

/-- Two global entities of different kinds share an original name. -/
def hasGlobalKindClash (p : ProgramNode) : Prop :=
  (∃ n, n ∈ globalVarNames p ∧ n ∈ globalProcNames p) ∨
  (∃ n, n ∈ globalVarNames p ∧ n ∈ globalFuncNames p) ∨
  (∃ n, n ∈ globalFuncNames p ∧ n ∈ globalProcNames p)

/-- The `RETURN`-rewriting of `_adapt_body` in its single-line form, valid
when a return target is present (then every line maps to exactly one
line). -/
def rewriteOne (t : Line) (l : Line) : Line :=
  match returnMatch l with
  | some place => t ++ " = ".toList ++ place
  | none => l

/-- An instruction sequence defines label `lab` when it contains the line
`REM <lab>`. -/
def definesLabel (c : List Line) (lab : Line) : Prop :=
  ("REM ".toList ++ lab) ∈ c

/-! Concrete input programs and IR fragments used to settle the claims. -/

/-- An unannotated reference to the variable `x`. -/
def xVar : VarNode := ⟨"x", none⟩

/-- The condition `(x > 0)`. -/
def xGtZero : TermNode :=
  .paren (.binop (.atom (.var xVar)) ">" (.atom (.num 0)) none)

/-- Program with a global variable `compute` and a function `compute`
(global name clash between two kinds): `glob { compute } func { fdef
compute(x) { halt; return x } } main { halt }`. -/
def clashProg : ProgramNode :=
  ⟨[⟨"compute", none⟩], [],
   [⟨⟨"compute", none⟩, [⟨"x", none⟩], ⟨[], .cons .halt .nil⟩, .var ⟨"x", none⟩⟩],
   ⟨[], .cons .halt .nil⟩⟩

/-- Program whose main body is `do { halt } until ((x > 0) and (x > 0))`,
with `x` a global numeric variable. -/
def doUntilAndProg : ProgramNode :=
  ⟨[xVar], [], [],
   ⟨[], .cons (.doUntil (.cons .halt .nil)
        (.paren (.binop xGtZero "and" xGtZero none))) .nil⟩⟩

/-- Program whose main body is `if (not (x > 0)) { x = 1 } else { x = 2 }`. -/
def ifNotElseProg : ProgramNode :=
  ⟨[xVar], [], [],
   ⟨[], .cons (.ifBranch (.paren (.unop "not" xGtZero))
        (.cons (.assign xVar (.atom (.num 1))) .nil)
        (.some (.cons (.assign xVar (.atom (.num 2))) .nil))) .nil⟩⟩

/-- The IR generated for `ifNotElseProg`. -/
def ifNotElseIR : List Line :=
  ["t1 = 0".toList, "IF v_x_1 > t1 THEN L2".toList, "t2 = 2".toList,
   "v_x_1 = t2".toList, "GOTO L3".toList, "REM L1".toList, "t3 = 1".toList,
   "v_x_1 = t3".toList, "REM L3".toList]

/-- Program whose main body assigns a procedure name to a variable:
`glob { x } proc { pdef p() { halt } } main { x = p }`. -/
def atomKindProg : ProgramNode :=
  ⟨[xVar], [⟨⟨"p", none⟩, [], ⟨[], .cons .halt .nil⟩⟩], [],
   ⟨[], .cons (.assign xVar (.atom (.var ⟨"p", none⟩))) .nil⟩⟩

/-- Program whose main body is `if (x > 0) { x = 1 }`. -/
def ifThenProg : ProgramNode :=
  ⟨[xVar], [], [],
   ⟨[], .cons (.ifBranch xGtZero
        (.cons (.assign xVar (.atom (.num 1))) .nil)
        .none) .nil⟩⟩

/-- The IR generated for `ifThenProg`. -/
def ifThenIR : List Line :=
  ["t1 = 0".toList, "IF v_x_1 > t1 THEN L1".toList, "GOTO L2".toList,
   "REM L1".toList, "t2 = 1".toList, "v_x_1 = t2".toList, "REM L2".toList]

/-- The `add` callee of the repository's inliner tests: body with two
labels and one `RETURN`. -/
def addInfo : FunctionBodyInfo :=
  ⟨"v_add_1".toList, ["v_a_2".toList, "v_b_3".toList],
   ["REM L1".toList, "t1 = v_a_2 + v_b_3".toList, "v_t_4 = t1".toList,
    "RETURN v_t_4".toList, "REM L2".toList]⟩

/-- Registry holding only `add`. -/
def addReg : Registry := [("v_add_1".toList, addInfo)]

/-- Input IR calling `add` twice (the repository's
`test_multiple_calls_same_function`). -/
def twoCallsIR : List Line :=
  ["t1 = CALL v_add_1(1, 2)".toList, "v_res1_11 = t1".toList,
   "t2 = CALL v_add_1(10, 20)".toList, "v_res2_12 = t2".toList, "STOP".toList]

/-- Output of inlining `twoCallsIR`. -/
def twoCallsOut : List Line :=
  ["v_a_2 = 1".toList, "v_b_3 = 2".toList, "REM L1_inline_1".toList,
   "t1 = v_a_2 + v_b_3".toList, "v_t_4 = t1".toList, "v_res1_11 = v_t_4".toList,
   "REM L2_inline_1".toList, "v_a_2 = 10".toList, "v_b_3 = 20".toList,
   "REM L1_inline_2".toList, "t1 = v_a_2 + v_b_3".toList, "v_t_4 = t1".toList,
   "v_res2_12 = v_t_4".toList, "REM L2_inline_2".toList, "STOP".toList]

/-- The first inlined copy of the `add` body produced for `twoCallsIR`. -/
def twoCallsCopy1 : List Line :=
  ["REM L1_inline_1".toList, "t1 = v_a_2 + v_b_3".toList, "v_t_4 = t1".toList,
   "v_res1_11 = v_t_4".toList, "REM L2_inline_1".toList]

/-- The second inlined copy of the `add` body produced for `twoCallsIR`. -/
def twoCallsCopy2 : List Line :=
  ["REM L1_inline_2".toList, "t1 = v_a_2 + v_b_3".toList, "v_t_4 = t1".toList,
   "v_res2_12 = v_t_4".toList, "REM L2_inline_2".toList]

/-- A function callee whose call target below is a resolved variable name
rather than a temporary. -/
def fInfo : FunctionBodyInfo :=
  ⟨"v_f_1".toList, [], ["t1 = 7".toList, "RETURN t1".toList]⟩

/-- Registry holding only `f`. -/
def fReg : Registry := [("v_f_1".toList, fInfo)]

/-- A call whose target is a variable name, immediately followed by a copy
of that target into another variable. -/
def vTargetCallIR : List Line :=
  ["v_r_1 = CALL v_f_1()".toList, "v_s_2 = v_r_1".toList]

/-- Output of inlining `vTargetCallIR`: the copy instruction survives. -/
def vTargetCallOut : List Line :=
  ["t1 = 7".toList, "v_r_1 = t1".toList, "v_s_2 = v_r_1".toList]

/-- Symbol record of a global numeric variable `x` as the analyzer creates
it (globals live at stack depth 2 because `_visit_program` pushes two
`Global` frames). -/
def infoXW : SymbolInfo := ⟨"x", "var", some "numeric", 2, "v_x_1".toList⟩

/-- The symbol-table state reached after the global phase of `ifThenProg`:
`x` declared in the inner global frame, the bottom frame still empty. -/
def stGlobalW : SymTab := ⟨[[("x", infoXW)], []], [("x", 1)]⟩

/-- Symbol record of a procedure `p`. -/
def infoPW : SymbolInfo := ⟨"p", "proc", none, 2, "v_p_1".toList⟩

/-- Symbol record of a function `g`. -/
def infoGW : SymbolInfo := ⟨"g", "func", none, 2, "v_g_1".toList⟩

/-- A symbol table holding `x`, `p` and `g` in one frame. -/
def stW : SymTab :=
  ⟨[[("x", infoXW), ("p", infoPW), ("g", infoGW)]],
   [("x", 1), ("p", 1), ("g", 1)]⟩

/-- The condition `(x > 0)` as annotated by the analyzer. -/
def condXW : TermNode :=
  .paren (.binop (.atom (.var ⟨"x", some infoXW⟩)) ">" (.atom (.num 0))
    (some "boolean"))

/-- The annotated then-branch `x = 1`. -/
def thenXW : Algorithm :=
  .cons (.assign ⟨"x", some infoXW⟩ (.atom (.num 1))) .nil

/-- The annotated else-branch `x = 2`. -/
def elseXW : Algorithm :=
  .cons (.assign ⟨"x", some infoXW⟩ (.atom (.num 2))) .nil

deriving instance DecidableEq for Except

/-! Properties of the decimal rendering. -/

theorem natCharsAux_congr (f1 : Nat) : ∀ f2 n, n < f1 → n < f2 →
    natCharsAux f1 n = natCharsAux f2 n := by
  induction f1 with
  | zero => intro f2 n h1 _; omega
  | succ g ih =>
    intro f2 n h1 h2
    cases f2 with
    | zero => omega
    | succ h =>
      simp only [natCharsAux]
      by_cases hlt : n < 10
      · simp [hlt]
      · have hd : n / 10 < n := Nat.div_lt_self (by omega) (by omega)
        simp only [hlt, if_false]
        rw [ih h (n / 10) (by omega) (by omega)]

theorem natChars_lt {n : Nat} (h : n < 10) : natChars n = [Nat.digitChar n] := by
  simp [natChars, natCharsAux, h]

theorem natChars_ge {n : Nat} (h : 10 ≤ n) :
    natChars n = natChars (n / 10) ++ [Nat.digitChar (n % 10)] := by
  have hd : n / 10 < n := Nat.div_lt_self (by omega) (by omega)
  show natCharsAux (n + 1) n = _
  rw [show n + 1 = Nat.succ n from rfl]
  simp only [natCharsAux]
  rw [if_neg (by omega)]
  rw [natCharsAux_congr n (n / 10 + 1) (n / 10) (by omega) (by omega)]
  rfl

theorem digitChar_isDigit {d : Nat} (h : d < 10) :
    (Nat.digitChar d).isDigit = true := by
  interval_cases d <;> decide

theorem digitVal_digitChar {d : Nat} (h : d < 10) :
    digitVal (Nat.digitChar d) = d := by
  interval_cases d <;> decide

theorem natChars_digits : ∀ n, ∀ c ∈ natChars n, c.isDigit = true := by
  intro n
  induction n using Nat.strong_induction_on with
  | _ n ih =>
    by_cases h : n < 10
    · rw [natChars_lt h]
      intro c hc
      simp at hc
      subst hc
      exact digitChar_isDigit h
    · rw [natChars_ge (by omega)]
      intro c hc
      rcases List.mem_append.mp hc with hc | hc
      · exact ih (n / 10) (Nat.div_lt_self (by omega) (by omega)) c hc
      · simp at hc
        subst hc
        exact digitChar_isDigit (Nat.mod_lt _ (by omega))

theorem charsVal_append_digit (l : List Char) (c : Char) :
    charsVal (l ++ [c]) = 10 * charsVal l + digitVal c := by
  simp [charsVal, List.foldl_append]

theorem charsVal_natChars : ∀ n, charsVal (natChars n) = n := by
  intro n
  induction n using Nat.strong_induction_on with
  | _ n ih =>
    by_cases h : n < 10
    · rw [natChars_lt h]
      show 10 * 0 + digitVal (Nat.digitChar n) = n
      rw [digitVal_digitChar h]
      omega
    · rw [natChars_ge (by omega), charsVal_append_digit,
        ih (n / 10) (Nat.div_lt_self (by omega) (by omega)),
        digitVal_digitChar (Nat.mod_lt _ (by omega))]
      omega

theorem natChars_inj {m n : Nat} (h : natChars m = natChars n) : m = n := by
  have hm := charsVal_natChars m
  rw [h, charsVal_natChars] at hm
  omega

theorem natChars_ne_nil (n : Nat) : natChars n ≠ [] := by
  by_cases h : n < 10
  · rw [natChars_lt h]; simp
  · rw [natChars_ge (by omega)]; simp

theorem natChars_no_underscore : ∀ n, ∀ c ∈ natChars n, c ≠ '_' := by
  intro n c hc he
  have := natChars_digits n c hc
  subst he
  simp at this

theorem append_sep_inj : ∀ (x1 x2 y1 y2 : List Char),
    (∀ c ∈ x1, c ≠ '_') → (∀ c ∈ x2, c ≠ '_') →
    x1 ++ '_' :: y1 = x2 ++ '_' :: y2 → x1 = x2 ∧ y1 = y2 := by
  intro x1
  induction x1 with
  | nil =>
    intro x2 y1 y2 _ h2 he
    cases x2 with
    | nil => simpa using he
    | cons c x2' =>
      simp at he
      exact absurd he.1.symm (h2 c (by simp))
  | cons c x1' ih =>
    intro x2 y1 y2 h1 h2 he
    cases x2 with
    | nil =>
      simp at he
      exact absurd he.1 (h1 c (by simp))
    | cons d x2' =>
      simp at he
      obtain ⟨hcd, htail⟩ := he
      obtain ⟨hx, hy⟩ := ih x2' y1 y2 (fun a ha => h1 a (by simp [ha]))
        (fun a ha => h2 a (by simp [ha])) htail
      subst hcd hx hy
      exact ⟨rfl, rfl⟩

theorem uniqueNameOf_inj {n1 n2 : String} {k1 k2 : Nat}
    (h : uniqueNameOf n1 k1 = uniqueNameOf n2 k2) : n1 = n2 ∧ k1 = k2 := by
  unfold uniqueNameOf at h
  simp only [List.cons.injEq, true_and] at h
  have hr := congrArg List.reverse h
  simp only [List.reverse_append, List.reverse_cons] at hr
  have hr' : (natChars k1).reverse ++ '_' :: n1.toList.reverse =
      (natChars k2).reverse ++ '_' :: n2.toList.reverse := by
    simpa using hr
  obtain ⟨hx, hy⟩ := append_sep_inj _ _ _ _
    (fun c hc => natChars_no_underscore k1 c (List.mem_reverse.mp hc))
    (fun c hc => natChars_no_underscore k2 c (List.mem_reverse.mp hc)) hr'
  constructor
  · have hteq : n1.toList = n2.toList := by
      have := congrArg List.reverse hy
      simpa using this
    cases n1 with
    | mk d1 =>
      cases n2 with
      | mk d2 =>
        simp only [String.toList] at hteq
        subst hteq
        rfl
  · exact natChars_inj (by
      have := congrArg List.reverse hx
      simpa using this)

/-! Association-list facts. -/

theorem alookup_aupdate_self {α β : Type} [DecidableEq α]
    (m : List (α × β)) (k : α) (v : β) : alookup (aupdate m k v) k = some v := by
  induction m with
  | nil => simp [aupdate, alookup]
  | cons p m ih =>
    by_cases h : p.1 = k
    · simp [aupdate, alookup, h]
    · simp [aupdate, alookup, h, ih]

theorem alookup_aupdate_ne {α β : Type} [DecidableEq α]
    (m : List (α × β)) (k : α) (v : β) (k' : α) (h : k' ≠ k) :
    alookup (aupdate m k v) k' = alookup m k' := by
  induction m with
  | nil => simp [aupdate, alookup, Ne.symm h]
  | cons p m ih =>
    by_cases hp : p.1 = k
    · subst hp
      simp [aupdate, alookup, Ne.symm h]
    · by_cases hp' : p.1 = k'
      · simp [aupdate, alookup, hp, hp', h]
      · simp [aupdate, alookup, hp, hp', ih]

/-! Claim C8: unique names are fresh across the table lifetime. -/

theorem declare_ok_facts {st : SymTab} {n k : String} {t : Option String}
    {info : SymbolInfo} {st' : SymTab}
    (h : declare st n k t = .ok (info, st')) :
    info.uniqueName = uniqueNameOf n (counterOf st n + 1) ∧
    (∀ m, counterOf st' m = if m = n then counterOf st n + 1 else counterOf st m) := by
  unfold declare at h
  cases hs : st.scopes with
  | nil => rw [hs] at h; simp at h
  | cons curr rest =>
    rw [hs] at h
    by_cases hdup : (alookup curr n).isSome
    · simp [hdup] at h
    · simp only [hdup, Bool.false_eq_true, if_false, genUniqueName,
        Except.ok.injEq, Prod.mk.injEq] at h
      obtain ⟨hinfo, hst⟩ := h
      constructor
      · rw [← hinfo]
      · intro m
        rw [← hst]
        by_cases hm : m = n
        · subst hm
          simp [counterOf, alookup_aupdate_self]
        · simp [counterOf, alookup_aupdate_ne _ _ _ _ hm, hm]

theorem counterOf_enterScope (st : SymTab) (m : String) :
    counterOf (enterScope st) m = counterOf st m := rfl

theorem counterOf_exitScope {st st' : SymTab} (h : exitScope st = .ok st') (m : String) :
    counterOf st' m = counterOf st m := by
  unfold exitScope at h
  cases hs : st.scopes with
  | nil => rw [hs] at h; exact absurd h (by simp)
  | cons f rest =>
    rw [hs] at h
    simp only [Except.ok.injEq] at h
    rw [← h]
    rfl

theorem runOps_names_fresh : ∀ (ops : List TableOp) (st : SymTab),
    ((runOps ops st).2).Pairwise (fun a b => a ≠ b) ∧
    (∀ u ∈ (runOps ops st).2, ∀ n c, u = uniqueNameOf n c → counterOf st n < c) := by
  intro ops
  induction ops with
  | nil => intro st; simp [runOps]
  | cons op ops ih =>
    intro st
    cases op with
    | enter =>
      simp only [runOps]
      refine ⟨(ih (enterScope st)).1, ?_⟩
      intro u hu n c he
      simpa using (ih (enterScope st)).2 u (by simpa using hu) n c he
    | exitOp =>
      simp only [runOps]
      cases hx : exitScope st with
      | error e =>
        refine ⟨(ih st).1, ?_⟩
        intro u hu n c he
        exact (ih st).2 u (by simpa using hu) n c he
      | ok s =>
        refine ⟨(ih s).1, ?_⟩
        intro u hu n c he
        have := (ih s).2 u (by simpa using hu) n c he
        rwa [counterOf_exitScope hx] at this
    | declareOp dn dk dt =>
      simp only [runOps]
      cases hd : declare st dn dk dt with
      | error e =>
        refine ⟨(ih st).1, ?_⟩
        intro u hu n c he
        exact (ih st).2 u (by simpa using hu) n c he
      | ok r =>
        obtain ⟨info, s⟩ := r
        obtain ⟨hname, hcnt⟩ := declare_ok_facts hd
        have bound : ∀ u ∈ (runOps ops s).2, ∀ n c, u = uniqueNameOf n c →
            counterOf st n < c := by
          intro u hu n c he
          have hs := (ih s).2 u hu n c he
          rw [hcnt n] at hs
          by_cases hn : n = dn
          · subst hn
            rw [if_pos rfl] at hs
            omega
          · rwa [if_neg hn] at hs
        constructor
        · simp only [List.singleton_append]
          refine List.Pairwise.cons ?_ (ih s).1
          intro b hb he
          have hs2 := (ih s).2 b hb dn (counterOf st dn + 1) (by rw [← he, hname])
          rw [hcnt dn, if_pos rfl] at hs2
          omega
        · intro u hu n c he
          simp only [List.singleton_append, List.mem_cons] at hu
          rcases hu with hu | hu
          · subst hu
            rw [hname] at he
            obtain ⟨h1, h2⟩ := uniqueNameOf_inj he.symm
            subst h1
            omega
          · exact bound u hu n c he

/-- Claim C8: over the whole lifetime of one symbol table, the unique names
returned by the successful `declare` operations are pairwise distinct,
whatever the original names, kinds, declared types and scope operations
are. -/
theorem c8_unique_names_distinct :
    ∀ ops : List TableOp,
    ((runOps ops SymTab.empty).2).Pairwise (fun a b => a ≠ b) :=
  fun ops => (runOps_names_fresh ops SymTab.empty).1

/-! List helpers for the recognizer proofs. -/

theorem takeWhile_append_all {p : Char → Bool} :
    ∀ (l1 : List Char), (∀ c ∈ l1, p c = true) → ∀ (c : Char), p c = false →
    ∀ (l2 : List Char), (l1 ++ c :: l2).takeWhile p = l1 ∧
      (l1 ++ c :: l2).dropWhile p = c :: l2 := by
  intro l1
  induction l1 with
  | nil =>
    intro _ c hc l2
    simp [List.takeWhile, List.dropWhile, hc]
  | cons a l1' ih =>
    intro h c hc l2
    have ha : p a = true := h a (by simp)
    have := ih (fun x hx => h x (by simp [hx])) c hc l2
    simp [List.takeWhile, List.dropWhile, ha, this.1, this.2]

theorem alookup_append {α β : Type} [DecidableEq α] :
    ∀ (m m' : List (α × β)) (k : α),
    alookup (m ++ m') k =
      (match alookup m k with
       | some v => some v
       | none => alookup m' k) := by
  intro m
  induction m with
  | nil => intro m' k; simp [alookup]
  | cons p m ih =>
    intro m' k
    by_cases h : p.1 = k
    · simp [alookup, h]
    · simp [alookup, h, ih]

/-! Facts about the line recognizers. -/

theorem remMatch_some {l lab : Line} (h : remMatch l = some lab) :
    l = "REM ".toList ++ lab ∧ isLLabel lab = true := by
  unfold remMatch at h
  split at h
  · split at h
    · simp at h
      subst h
      constructor
      · rfl
      · assumption
    · simp at h
  · simp at h

theorem returnMatch_some {l pl : Line} (h : returnMatch l = some pl) :
    l = "RETURN ".toList ++ pl ∧ (isTTemp pl || isVName pl) = true := by
  unfold returnMatch at h
  split at h
  · split at h
    · simp at h
      subst h
      constructor
      · rfl
      · assumption
    · simp at h
  · simp at h

theorem jumpMatch_some {l cmd lab : Line} (h : jumpMatch l = some (cmd, lab)) :
    l = cmd ++ ' ' :: lab ∧
    (∃ ds, lab = 'L' :: ds ∧ ds ≠ []) ∧
    ((∃ t, cmd = 'G' :: t) ∨ (∃ t, cmd = 'I' :: t)) := by
  simp only [jumpMatch] at h
  split at h
  case h_2 => simp at h
  case h_1 r heq =>
    split at h
    · simp at h
    · rename_i hds
      have hrec : l.reverse.takeWhile Char.isDigit ++ l.reverse.dropWhile Char.isDigit
          = l.reverse := List.takeWhile_append_dropWhile _ _
      rw [heq] at hrec
      have hl : l = (l.reverse.takeWhile Char.isDigit ++ 'L' :: ' ' :: r).reverse := by
        rw [hrec]
        simp
      split at h
      · rename_i hpre
        simp only [Option.some.injEq, Prod.mk.injEq] at h
        obtain ⟨hcmd, hlab⟩ := h
        refine ⟨?_, ⟨(l.reverse.takeWhile Char.isDigit).reverse, hlab.symm, by
          intro hnil
          exact hds (by simpa using congrArg List.reverse hnil)⟩, ?_⟩
        · rw [hl, ← hcmd, ← hlab]
          simp
        · left
          rw [← hcmd, hpre]
          exact ⟨_, rfl⟩
      · split at h
        · rename_i hpre
          simp only [Option.some.injEq, Prod.mk.injEq] at h
          obtain ⟨hcmd, hlab⟩ := h
          simp only [Bool.and_eq_true] at hpre
          obtain ⟨⟨hifp, _⟩, _⟩ := hpre
          refine ⟨?_, ⟨(l.reverse.takeWhile Char.isDigit).reverse, hlab.symm, by
            intro hnil
            exact hds (by simpa using congrArg List.reverse hnil)⟩, ?_⟩
          · rw [hl, ← hcmd, ← hlab]
            simp
          · right
            obtain ⟨t, ht⟩ := List.isPrefixOf_iff_prefix.mp hifp
            exact ⟨'F' :: ' ' :: t, by rw [← hcmd, ← ht]; rfl⟩
        · simp at h

theorem remMatch_none_of_jump {l cmd lab : Line} (h : jumpMatch l = some (cmd, lab)) :
    remMatch l = none := by
  obtain ⟨hl, _, hcmd⟩ := jumpMatch_some h
  rcases hcmd with ⟨t, ht⟩ | ⟨t, ht⟩ <;> subst ht <;> rw [hl] <;> rfl

theorem blm_lookup_none (id : Nat) :
    ∀ (ir : List Line) (acc : List (Line × Line)) (lab : Line),
    (∀ l ∈ ir, remMatch l ≠ some lab) → alookup acc lab = none →
    alookup (ir.foldl (blmStep id) acc) lab = none := by
  intro ir
  induction ir with
  | nil => intro acc lab _ hacc; simpa using hacc
  | cons l ir ih =>
    intro acc lab hne hacc
    simp only [List.foldl_cons]
    cases hr : remMatch l with
    | none =>
      rw [show blmStep id acc l = acc by simp [blmStep, hr]]
      exact ih _ lab (fun x hx => hne x (by simp [hx])) hacc
    | some lab' =>
      have hlab' : lab' ≠ lab := by
        intro he
        exact hne l (by simp) (by rw [hr, he])
      by_cases hin : (alookup acc lab').isSome
      · rw [show blmStep id acc l = acc by simp [blmStep, hr, hin]]
        exact ih _ lab (fun x hx => hne x (by simp [hx])) hacc
      · rw [show blmStep id acc l = acc ++ [(lab', lab' ++ inlineSuffix id)] by
          simp only [blmStep, hr]
          exact if_neg hin]
        apply ih _ lab (fun x hx => hne x (by simp [hx]))
        rw [alookup_append, hacc]
        simp [alookup, hlab']

theorem buildLabelMap_lookup_none {ir : List Line} {lab : Line} (id : Nat)
    (h : ∀ l ∈ ir, remMatch l ≠ some lab) :
    alookup (buildLabelMap ir id) lab = none :=
  blm_lookup_none id ir [] lab h rfl

theorem place_head {t : Line} (h : (isTTemp t || isVName t) = true) :
    ∃ c cs, t = c :: cs ∧ (c = 't' ∨ c = 'v') := by
  rw [Bool.or_eq_true] at h
  rcases h with h | h
  · unfold isTTemp at h
    cases t with
    | nil => simp at h
    | cons c cs =>
      simp only [Bool.and_eq_true, decide_eq_true_eq] at h
      exact ⟨c, cs, rfl, .inl h.1.1⟩
  · unfold isVName at h
    cases t with
    | nil => simp at h
    | cons c1 rest =>
      cases rest with
      | nil => simp at h
      | cons c2 t' =>
        simp only [Bool.and_eq_true, decide_eq_true_eq] at h
        exact ⟨c1, c2 :: t', rfl, .inr h.1.1⟩

theorem place_rev {pl : Line} (h : (isTTemp pl || isVName pl) = true) :
    ∃ ds c r2, pl.reverse = ds ++ c :: r2 ∧ (∀ x ∈ ds, Char.isDigit x = true) ∧
      Char.isDigit c = false ∧ c ≠ 'L' := by
  rw [Bool.or_eq_true] at h
  rcases h with h | h
  · unfold isTTemp at h
    cases pl with
    | nil => simp at h
    | cons c cs =>
      simp only [Bool.and_eq_true, decide_eq_true_eq] at h
      obtain ⟨⟨hc, _⟩, hd⟩ := h
      subst hc
      refine ⟨cs.reverse, 't', [], by simp, ?_, by decide, by decide⟩
      intro x hx
      exact List.all_eq_true.mp hd x (List.mem_reverse.mp hx)
  · unfold isVName at h
    cases pl with
    | nil => simp at h
    | cons c1 rest =>
      cases rest with
      | nil => simp at h
      | cons c2 t =>
        simp only [Bool.and_eq_true, decide_eq_true_eq] at h
        obtain ⟨⟨hc1, hc2⟩, _, hmatch⟩ := h
        subst hc1
        subst hc2
        have hrec : t.reverse.takeWhile Char.isDigit ++ t.reverse.dropWhile Char.isDigit
            = t.reverse := List.takeWhile_append_dropWhile _ _
        split at hmatch
        case h_2 => simp at hmatch
        case h_1 pre heq =>
          rw [heq] at hrec
          set tw := t.reverse.takeWhile Char.isDigit with htw
          refine ⟨tw, '_', pre ++ ['_', 'v'], ?_, ?_, by decide, by decide⟩
          · have hplr : ('v' :: '_' :: t).reverse = t.reverse ++ ['_', 'v'] := by simp
            rw [hplr, ← hrec]
            simp
          · intro x hx
            exact List.mem_takeWhile_imp (htw ▸ hx)

theorem callMatch_target {l t f a : Line} (h : callMatch l = some (t, f, a)) :
    (isTTemp t || isVName t) = true := by
  simp only [callMatch] at h
  split at h
  case isFalse => simp at h
  case isTrue hcond =>
    split at h
    case h_2 => simp at h
    case h_1 rest heq =>
      split at h
      case isFalse => simp at h
      case isTrue hg2 =>
        split at h
        case h_2 => simp at h
        case h_1 r4 heq2 =>
          split at h
          case h_2 => simp at h
          case h_1 heq3 =>
            split at h
            case isFalse => simp at h
            case isTrue hall =>
              simp only [Option.some.injEq, Prod.mk.injEq] at h
              obtain ⟨h1, _, _⟩ := h
              subst h1
              exact hcond

theorem assignMatch_none_of_call {l t f a : Line} (h : callMatch l = some (t, f, a)) :
    assignMatch l = none := by
  simp only [callMatch] at h
  simp only [assignMatch]
  split at h
  case isFalse => simp at h
  case isTrue hcond =>
    split at h
    case h_2 => simp at h
    case h_1 rest heq =>
      by_cases hv : isVName (l.takeWhile (fun c => c ≠ ' '))
      · rw [if_pos hv, heq]
        simp [isTTemp]
      · rw [if_neg hv]

theorem returnMatch_none_rem (x : Line) :
    returnMatch ("REM ".toList ++ x) = none := rfl

theorem returnMatch_none_goto (t x : Line) :
    returnMatch (('G' :: t) ++ ' ' :: x) = none := rfl

theorem returnMatch_none_if (t x : Line) :
    returnMatch (('I' :: t) ++ ' ' :: x) = none := rfl

theorem jumpMatch_none_of_place {l pl : Line} (hl : l = "RETURN ".toList ++ pl)
    (hshape : (isTTemp pl || isVName pl) = true) : jumpMatch l = none := by
  obtain ⟨ds, c, r2, hrev, hds, hcd, hcl⟩ := place_rev hshape
  have hlr : l.reverse = ds ++ c :: (r2 ++ "RETURN ".toList.reverse) := by
    rw [hl, List.reverse_append, hrev]
    simp
  obtain ⟨htk, hdr⟩ := takeWhile_append_all ds hds c hcd (r2 ++ "RETURN ".toList.reverse)
  simp only [jumpMatch, hlr, hdr]
  split
  case h_1 rpre heq => exact absurd (List.cons.injEq .. |>.mp heq).1 hcl
  case h_2 => rfl

theorem remMatch_none_of_place {l pl : Line} (hl : l = "RETURN ".toList ++ pl) :
    remMatch l = none := by
  rw [hl]
  rfl

theorem relabelLine_of_return {m : List (Line × Line)} {l pl : Line}
    (h : returnMatch l = some pl) : relabelLine m l = l := by
  obtain ⟨hl, hshape⟩ := returnMatch_some h
  simp only [relabelLine, remMatch_none_of_place hl, jumpMatch_none_of_place hl hshape]

theorem blmStep_mono {id : Nat} {acc : List (Line × Line)} {k : Line} (l : Line)
    (h : (alookup acc k).isSome = true) :
    (alookup (blmStep id acc l) k).isSome = true := by
  unfold blmStep
  split
  · split
    · exact h
    · rw [alookup_append]
      obtain ⟨v, hv⟩ := Option.isSome_iff_exists.mp h
      rw [hv]
      simp
  · exact h

theorem blm_vals (id : Nat) : ∀ (ir : List Line) (acc : List (Line × Line)),
    (∀ k v, alookup acc k = some v → v = k ++ inlineSuffix id) →
    ∀ k v, alookup (ir.foldl (blmStep id) acc) k = some v → v = k ++ inlineSuffix id := by
  intro ir
  induction ir with
  | nil => intro acc hacc k v hkv; exact hacc k v hkv
  | cons l ir ih =>
    intro acc hacc k v
    simp only [List.foldl_cons]
    apply ih
    intro k' v' hk'
    unfold blmStep at hk'
    split at hk'
    · split at hk'
      · exact hacc k' v' hk'
      · rename_i lab hr _
        rw [alookup_append] at hk'
        cases hcc : alookup acc k' with
        | some w => rw [hcc] at hk'; exact hacc k' v' (by rw [hcc, ← hk'])
        | none =>
          rw [hcc] at hk'
          simp only [alookup] at hk'
          split at hk'
          · rename_i hlk
            simp only [Option.some.injEq] at hk'
            rw [← hk', ← hlk]
          · simp at hk'
    · exact hacc k' v' hk'

theorem blm_isSome (id : Nat) : ∀ (ir : List Line) (acc : List (Line × Line)) (lab : Line),
    ((∃ l ∈ ir, remMatch l = some lab) ∨ (alookup acc lab).isSome = true) →
    (alookup (ir.foldl (blmStep id) acc) lab).isSome = true := by
  intro ir
  induction ir with
  | nil =>
    intro acc lab h
    rcases h with ⟨l, hl, _⟩ | h
    · simp at hl
    · simpa using h
  | cons l ir ih =>
    intro acc lab h
    simp only [List.foldl_cons]
    apply ih
    rcases h with ⟨l', hl', hr'⟩ | h
    · rcases List.mem_cons.mp hl' with rfl | hmem
      · right
        have hstep : blmStep id acc l' = if (alookup acc lab).isSome then acc
            else acc ++ [(lab, lab ++ inlineSuffix id)] := by
          simp [blmStep, hr']
        rw [hstep]
        by_cases hcc : (alookup acc lab).isSome
        · rwa [if_pos hcc]
        · rw [if_neg hcc, alookup_append]
          cases hc2 : alookup acc lab with
          | some w => simp at hcc hc2; rw [hc2] at hcc; simp at hcc
          | none => simp [alookup]
      · exact .inl ⟨l', hmem, hr'⟩
    · exact .inr (blmStep_mono l h)

theorem buildLabelMap_defined {ir : List Line} {lab : Line} (id : Nat)
    (h : ∃ l ∈ ir, remMatch l = some lab) :
    alookup (buildLabelMap ir id) lab = some (lab ++ inlineSuffix id) := by
  have h1 := blm_isSome id ir [] lab (.inl h)
  obtain ⟨v, hv⟩ := Option.isSome_iff_exists.mp h1
  have h2 := blm_vals id ir [] (by intro k v hk; simp [alookup] at hk) lab v hv
  rw [show buildLabelMap ir id = ir.foldl (blmStep id) [] from rfl, hv, h2]

theorem rewriteReturn_some_eq (t l : Line) :
    rewriteReturn (some t) l = [rewriteOne t l] := by
  unfold rewriteReturn rewriteOne
  split <;> rfl

theorem flatMap_singleton_eq_map {α β : Type} (f : α → β) :
    ∀ l : List α, (l.flatMap fun x => [f x]) = l.map f := by
  intro l
  induction l with
  | nil => rfl
  | cons a l ih => simp [List.flatMap_cons, ih]

theorem adaptBody_some (body : List Line) (t : Line) (k : Nat) :
    adaptBody body (some t) k = (makeLabelsUnique body k).map (rewriteOne t) := by
  unfold adaptBody
  rw [show (rewriteReturn (some t)) = fun l => [rewriteOne t l] from
    funext (rewriteReturn_some_eq t)]
  exact flatMap_singleton_eq_map (rewriteOne t) (makeLabelsUnique body k)

theorem adaptBody_pointwise {body : List Line} {t : Line} {k : Nat} {i : Nat} {l : Line}
    (hi : body[i]? = some l) :
    (adaptBody body (some t) k)[i]? =
      some (rewriteOne t (relabelLine (buildLabelMap body k) l)) := by
  rw [adaptBody_some, List.getElem?_map]
  unfold makeLabelsUnique
  rw [List.getElem?_map, hi]
  rfl

theorem relabelLine_of_rem {body : List Line} {k : Nat} {l lab : Line}
    (hl : l ∈ body) (hr : remMatch l = some lab) :
    relabelLine (buildLabelMap body k) l = "REM ".toList ++ (lab ++ inlineSuffix k) := by
  simp only [relabelLine, hr, buildLabelMap_defined k ⟨l, hl, hr⟩, Option.getD_some]

theorem relabelLine_of_jump {m : List (Line × Line)} {l cmd lab : Line}
    (hrm : remMatch l = none) (hj : jumpMatch l = some (cmd, lab)) :
    relabelLine m l = cmd ++ ' ' :: (alookup m lab).getD lab := by
  simp only [relabelLine, hrm, hj]

theorem relabelLine_default {m : List (Line × Line)} {l : Line}
    (hrm : remMatch l = none) (hj : jumpMatch l = none) :
    relabelLine m l = l := by
  simp only [relabelLine, hrm, hj]

theorem rewriteOne_unchanged {t l : Line} (h : returnMatch l = none) :
    rewriteOne t l = l := by
  simp [rewriteOne, h]

theorem rewriteOne_ret {t l pl : Line} (h : returnMatch l = some pl) :
    rewriteOne t l = t ++ " = ".toList ++ pl := by
  simp [rewriteOne, h]

theorem rem_isPrefixOf (x : Line) :
    "REM ".toList.isPrefixOf ("REM ".toList ++ x) = true :=
  List.isPrefixOf_iff_prefix.mpr ⟨x, rfl⟩

theorem copy_labels_suffix {body : List Line} {t : Line} {k : Nat}
    (hsh : (isTTemp t || isVName t) = true)
    (hwf : ∀ l ∈ body, "REM ".toList.isPrefixOf l = true → (remMatch l).isSome = true) :
    ∀ lab, definesLabel (adaptBody body (some t) k) lab →
      ∃ lab0, lab = lab0 ++ inlineSuffix k := by
  intro lab hmem
  rw [adaptBody_some] at hmem
  obtain ⟨l', hl', heq⟩ := List.mem_map.mp hmem
  obtain ⟨l0, hl0, heq0⟩ := List.mem_map.mp hl'
  obtain ⟨c, cs, hts, hc⟩ := place_head hsh
  cases hr : returnMatch l' with
  | some pl =>
    rw [rewriteOne_ret hr] at heq
    rw [hts] at heq
    have hhead := (List.cons.injEq .. |>.mp heq).1
    rcases hc with rfl | rfl <;> simp at hhead
  | none =>
    rw [rewriteOne_unchanged hr] at heq
    subst heq
    cases hr0 : remMatch l0 with
    | some lab0 =>
      rw [relabelLine_of_rem hl0 hr0] at heq0
      refine ⟨lab0, ?_⟩
      have := heq0
      simpa using this.symm
    | none =>
      cases hj0 : jumpMatch l0 with
      | some p =>
        obtain ⟨cmd, lab1⟩ := p
        rw [relabelLine_of_jump hr0 hj0] at heq0
        obtain ⟨_, _, hcmd⟩ := jumpMatch_some hj0
        rcases hcmd with ⟨tt, rfl⟩ | ⟨tt, rfl⟩ <;>
          exact absurd (List.cons.injEq .. |>.mp heq0).1 (by decide)
      | none =>
        rw [relabelLine_default hr0 hj0] at heq0
        subst heq0
        have := hwf _ hl0 (rem_isPrefixOf lab)
        rw [Option.isSome_iff_exists] at this
        obtain ⟨lab', hlab'⟩ := this
        obtain ⟨hshape, _⟩ := remMatch_some hlab'
        have : lab = lab' := by
          have := hshape
          simpa using this
        rw [hlab'] at hr0
        simp at hr0

theorem suffix_getLast (a : Line) (k : Nat) :
    (a ++ inlineSuffix k).getLast? = (natChars k).getLast? := by
  unfold inlineSuffix
  rw [← List.append_assoc]
  exact List.getLast?_append_of_ne_nil _ (natChars_ne_nil k)

/-! Step equations for `inline_calls` at a registered function call. -/

theorem inline_step_noskip {reg : Registry} {k : Nat} {line tgt f as : Line}
    {rest : List Line} {info : FunctionBodyInfo}
    (hc : callMatch line = some (tgt, f, as))
    (hreg : alookup reg f = some info)
    (hret : info.bodyIR.any hasReturnLine = true)
    (hlen : (parseArgs as).length = info.params.length)
    (hpk : peekSkip tgt rest = none) :
    inlineGo reg k (line :: rest) =
      (inlineGo reg (k + 1) rest).map
        (fun o => paramAssignments info.params (parseArgs as) ++
          adaptBody info.bodyIR (some tgt) (k + 1) ++ o) := by
  have hne : ¬((parseArgs as).length ≠ info.params.length) := by
    rw [hlen]
    exact fun hh => hh rfl
  simp only [inlineGo, hc, hreg, hret, hpk, if_true, if_neg hne]

theorem inline_step_skip {reg : Registry} {k : Nat} {line tgt f as next fv : Line}
    {rest2 : List Line} {info : FunctionBodyInfo}
    (hc : callMatch line = some (tgt, f, as))
    (hreg : alookup reg f = some info)
    (hret : info.bodyIR.any hasReturnLine = true)
    (hlen : (parseArgs as).length = info.params.length)
    (hpk : peekSkip tgt (next :: rest2) = some fv) :
    inlineGo reg k (line :: next :: rest2) =
      (inlineGo reg (k + 1) rest2).map
        (fun o => paramAssignments info.params (parseArgs as) ++
          adaptBody info.bodyIR (some fv) (k + 1) ++ o) := by
  have hne : ¬((parseArgs as).length ≠ info.params.length) := by
    rw [hlen]
    exact fun hh => hh rfl
  simp only [inlineGo, hc, hreg, hret, hpk, if_true, if_neg hne]

/-- Claim C7: at any point of the pass, a call instruction whose callee is
absent from the registry is appended to the output byte-for-byte unchanged
(the very instruction, not a rebuilt copy), at the position corresponding
to its input position, and the pass continues with the remaining
instructions at the same call-site counter instead of aborting. -/
theorem c7_unknown_callee_kept {reg : Registry} {k : Nat} {line : Line}
    {rest : List Line} {tgt callee argsStr : Line}
    (h1 : callMatch line = some (tgt, callee, argsStr))
    (h2 : alookup reg callee = none) :
    inlineGo reg k (line :: rest) = (inlineGo reg k rest).map (fun o => line :: o) := by
  simp only [inlineGo, h1, h2]

/-- Claim C10: a label referenced by a `GOTO` or `IF...THEN` line of a
callee body but not defined by any `REM L<n>` line of that body is copied
into the inlined output unchanged, for every inline instance id `k`, so
every inlined copy of the body references the identical un-renamed
label. -/
theorem c10_undefined_label_kept {body : List Line} {k i : Nat} {l cmd lab : Line}
    (h1 : body[i]? = some l)
    (h2 : jumpMatch l = some (cmd, lab))
    (h3 : ∀ l' ∈ body, remMatch l' ≠ some lab) :
    (makeLabelsUnique body k)[i]? = some l := by
  unfold makeLabelsUnique
  rw [List.getElem?_map, h1]
  have hrm : remMatch l = none := remMatch_none_of_jump h2
  have hnone : alookup (buildLabelMap body k) lab = none :=
    buildLabelMap_lookup_none k h3
  show some (relabelLine (buildLabelMap body k) l) = some l
  simp only [relabelLine, hrm, h2, hnone, Option.getD_none]
  rw [(jumpMatch_some h2).1]

/-! Claim C5 and claim C6 theorems. -/

/-- Claim C5 (amended): with a fresh inliner, inlining the first two calls
to a registered function `F` produces two body copies placed after the
respective parameter bindings; the copies are identical to the body except
that (a) labels defined in the body get the suffixes `_inline_1` and
`_inline_2` respectively in `REM` and `GOTO`/`IF...THEN` lines (a label
not defined in the body stays identical in both copies), and (b) each
`RETURN <place>` line is rewritten into an assignment of that place to the
respective call's return target, which differs between the copies when the
two calls use different targets; when every `REM`-line label of the body
is well formed (`L<n>`), no label is defined by both copies. -/
theorem c5_inline_same_function_twice {reg : Registry} {f : Line}
    {info : FunctionBodyInfo} {t1 t2 c1 c2 as1 as2 : Line} {rest : List Line}
    (hreg : alookup reg f = some info)
    (hret : info.bodyIR.any hasReturnLine = true)
    (hc1 : callMatch c1 = some (t1, f, as1))
    (hc2 : callMatch c2 = some (t2, f, as2))
    (hl1 : (parseArgs as1).length = info.params.length)
    (hl2 : (parseArgs as2).length = info.params.length)
    (hpk2 : peekSkip t2 rest = none)
    (hwf : ∀ l ∈ info.bodyIR, "REM ".toList.isPrefixOf l = true →
      (remMatch l).isSome = true) :
    (∀ out, inlineGo reg 2 rest = .ok out →
      inlineCalls reg (c1 :: c2 :: rest) = .ok
        (paramAssignments info.params (parseArgs as1) ++
          adaptBody info.bodyIR (some t1) 1 ++
          (paramAssignments info.params (parseArgs as2) ++
            (adaptBody info.bodyIR (some t2) 2 ++ out)))) ∧
    (∀ (i : Nat) l lab, info.bodyIR[i]? = some l → remMatch l = some lab →
      (adaptBody info.bodyIR (some t1) 1)[i]? =
        some ("REM ".toList ++ (lab ++ inlineSuffix 1)) ∧
      (adaptBody info.bodyIR (some t2) 2)[i]? =
        some ("REM ".toList ++ (lab ++ inlineSuffix 2))) ∧
    (∀ (i : Nat) l cmd lab, info.bodyIR[i]? = some l → remMatch l = none →
      jumpMatch l = some (cmd, lab) →
      ∃ lab1 lab2,
        (adaptBody info.bodyIR (some t1) 1)[i]? = some (cmd ++ ' ' :: lab1) ∧
        (adaptBody info.bodyIR (some t2) 2)[i]? = some (cmd ++ ' ' :: lab2) ∧
        ((lab1 = lab ∧ lab2 = lab) ∨
          (lab1 = lab ++ inlineSuffix 1 ∧ lab2 = lab ++ inlineSuffix 2))) ∧
    (∀ (i : Nat) l pl, info.bodyIR[i]? = some l → returnMatch l = some pl →
      (adaptBody info.bodyIR (some t1) 1)[i]? = some (t1 ++ " = ".toList ++ pl) ∧
      (adaptBody info.bodyIR (some t2) 2)[i]? = some (t2 ++ " = ".toList ++ pl)) ∧
    (∀ (i : Nat) l, info.bodyIR[i]? = some l → remMatch l = none → jumpMatch l = none →
      returnMatch l = none →
      (adaptBody info.bodyIR (some t1) 1)[i]? = some l ∧
      (adaptBody info.bodyIR (some t2) 2)[i]? = some l) ∧
    (∀ lab, definesLabel (adaptBody info.bodyIR (some t1) 1) lab →
      definesLabel (adaptBody info.bodyIR (some t2) 2) lab → False) := by
  refine ⟨?_, ?_, ?_, ?_, ?_, ?_⟩
  · intro out hout
    have hpk1 : peekSkip t1 (c2 :: rest) = none := by
      simp [peekSkip, assignMatch_none_of_call hc2]
    unfold inlineCalls
    rw [inline_step_noskip hc1 hreg hret hl1 hpk1]
    rw [inline_step_noskip hc2 hreg hret hl2 hpk2]
    rw [hout]
    simp [Except.map]
  · intro i l lab hi hr
    have hmem : l ∈ info.bodyIR := List.getElem?_mem hi
    constructor <;>
      rw [adaptBody_pointwise hi, relabelLine_of_rem hmem hr,
        rewriteOne_unchanged (returnMatch_none_rem _)]
  · intro i l cmd lab hi hrm hj
    obtain ⟨_, _, hcmd⟩ := jumpMatch_some hj
    have hro : ∀ x : Line, rewriteOne t1 (cmd ++ ' ' :: x) = cmd ++ ' ' :: x := by
      intro x
      rcases hcmd with ⟨tt, rfl⟩ | ⟨tt, rfl⟩
      · exact rewriteOne_unchanged (returnMatch_none_goto _ _)
      · exact rewriteOne_unchanged (returnMatch_none_if _ _)
    have hro2 : ∀ x : Line, rewriteOne t2 (cmd ++ ' ' :: x) = cmd ++ ' ' :: x := by
      intro x
      rcases hcmd with ⟨tt, rfl⟩ | ⟨tt, rfl⟩
      · exact rewriteOne_unchanged (returnMatch_none_goto _ _)
      · exact rewriteOne_unchanged (returnMatch_none_if _ _)
    by_cases hdef : ∃ l' ∈ info.bodyIR, remMatch l' = some lab
    · refine ⟨lab ++ inlineSuffix 1, lab ++ inlineSuffix 2, ?_, ?_, .inr ⟨rfl, rfl⟩⟩
      · rw [adaptBody_pointwise hi, relabelLine_of_jump hrm hj,
          buildLabelMap_defined 1 hdef, Option.getD_some, hro]
      · rw [adaptBody_pointwise hi, relabelLine_of_jump hrm hj,
          buildLabelMap_defined 2 hdef, Option.getD_some, hro2]
    · push_neg at hdef
      refine ⟨lab, lab, ?_, ?_, .inl ⟨rfl, rfl⟩⟩
      · rw [adaptBody_pointwise hi, relabelLine_of_jump hrm hj,
          buildLabelMap_lookup_none 1 hdef, Option.getD_none, hro]
      · rw [adaptBody_pointwise hi, relabelLine_of_jump hrm hj,
          buildLabelMap_lookup_none 2 hdef, Option.getD_none, hro2]
  · intro i l pl hi hr
    constructor <;>
      rw [adaptBody_pointwise hi, relabelLine_of_return hr, rewriteOne_ret hr]
  · intro i l hi hrm hjm hrt
    constructor <;>
      rw [adaptBody_pointwise hi, relabelLine_default hrm hjm,
        rewriteOne_unchanged hrt]
  · intro lab h1 h2
    obtain ⟨a1, ha1⟩ := copy_labels_suffix (callMatch_target hc1) hwf lab h1
    obtain ⟨a2, ha2⟩ := copy_labels_suffix (callMatch_target hc2) hwf lab h2
    have g1 := congrArg List.getLast? ha1
    have g2 := congrArg List.getLast? ha2
    rw [suffix_getLast] at g1 g2
    rw [g1] at g2
    exact absurd g2 (by decide)

/-- Claim C6 (amended): at a call `<target> = CALL <callee>(...)` on a
registered callee whose body contains a `RETURN` line, the copy
instruction after the call is collapsed exactly when it matches
`assignment_pattern` against the call target — i.e. it has the shape
`<finalVar> = <target>` with `<finalVar>` a resolved variable name
`v_..._<n>` and `<target>` a temporary `t<n>`; then the copy is omitted
and every `RETURN <place>` line of the body copy whose place is a
temporary or resolved variable name is rewritten to
`<finalVar> = <place>`.  When the lookahead does not match, the return
destination is `<target>` and the next instruction is kept. -/
theorem c6_peephole_collapse {reg : Registry} {k : Nat} {line tgt f as : Line}
    {info : FunctionBodyInfo}
    (hc : callMatch line = some (tgt, f, as))
    (hreg : alookup reg f = some info)
    (hret : info.bodyIR.any hasReturnLine = true)
    (hlen : (parseArgs as).length = info.params.length) :
    (∀ (next : Line) (rest2 : List Line) (fv : Line),
      assignMatch next = some (fv, tgt) →
      inlineGo reg k (line :: next :: rest2) =
        (inlineGo reg (k + 1) rest2).map
          (fun o => paramAssignments info.params (parseArgs as) ++
            adaptBody info.bodyIR (some fv) (k + 1) ++ o)) ∧
    (∀ (next : Line) (rest2 : List Line),
      peekSkip tgt (next :: rest2) = none →
      inlineGo reg k (line :: next :: rest2) =
        (inlineGo reg (k + 1) (next :: rest2)).map
          (fun o => paramAssignments info.params (parseArgs as) ++
            adaptBody info.bodyIR (some tgt) (k + 1) ++ o)) ∧
    (∀ (kk : Nat) (t : Line) (i : Nat) (l pl : Line),
      info.bodyIR[i]? = some l → returnMatch l = some pl →
      (adaptBody info.bodyIR (some t) kk)[i]? = some (t ++ " = ".toList ++ pl)) := by
  refine ⟨?_, ?_, ?_⟩
  · intro next rest2 fv hnext
    exact inline_step_skip hc hreg hret hlen (by simp [peekSkip, hnext])
  · intro next rest2 hnone
    exact inline_step_noskip hc hreg hret hlen hnone
  · intro kk t i l pl hi hr
    rw [adaptBody_pointwise hi, relabelLine_of_return hr, rewriteOne_ret hr]

/-- Counterexample to claim C5 as stated: inlining `add` twice from the
repository's own test input produces two copies whose corresponding fourth
lines carry no label at all (neither `REM` nor jump) and still differ —
they write the return value to the two different final variables — so the
copies are not structurally identical up to `_inline_<k>` suffixes. -/
theorem c5_return_target_counterexample :
    inlineCalls addReg twoCallsIR = .ok twoCallsOut ∧
    adaptBody addInfo.bodyIR (some "v_res1_11".toList) 1 = twoCallsCopy1 ∧
    adaptBody addInfo.bodyIR (some "v_res2_12".toList) 2 = twoCallsCopy2 ∧
    twoCallsCopy1[3]? = some "v_res1_11 = v_t_4".toList ∧
    twoCallsCopy2[3]? = some "v_res2_12 = v_t_4".toList ∧
    remMatch "v_res1_11 = v_t_4".toList = none ∧
    jumpMatch "v_res1_11 = v_t_4".toList = none ∧
    remMatch "v_res2_12 = v_t_4".toList = none ∧
    jumpMatch "v_res2_12 = v_t_4".toList = none ∧
    "v_res1_11 = v_t_4".toList ≠ "v_res2_12 = v_t_4".toList := by
  decide

/-- Witness for claim C5's theorem at a concrete instance: two adjacent
calls to the registered `add` function followed by `STOP`. -/
theorem c5_inline_same_function_twice_witness :
    inlineCalls addReg
      ["t1 = CALL v_add_1(1, 2)".toList, "t2 = CALL v_add_1(10, 20)".toList,
        "STOP".toList] = .ok
      (paramAssignments addInfo.params (parseArgs "1, 2".toList) ++
        adaptBody addInfo.bodyIR (some "t1".toList) 1 ++
        (paramAssignments addInfo.params (parseArgs "10, 20".toList) ++
          (adaptBody addInfo.bodyIR (some "t2".toList) 2 ++ ["STOP".toList]))) :=
  (@c5_inline_same_function_twice addReg "v_add_1".toList addInfo
      "t1".toList "t2".toList
      "t1 = CALL v_add_1(1, 2)".toList "t2 = CALL v_add_1(10, 20)".toList
      "1, 2".toList "10, 20".toList ["STOP".toList]
      (by decide) (by decide) (by decide) (by decide)
      (by decide) (by decide) (by decide) (by decide)).1
    ["STOP".toList] (by decide)

/-- Counterexample to claim C6 as stated: a call whose target is a resolved
variable name, immediately followed by the copy `v_s_2 = v_r_1` of that
target into a variable.  The claim says the copy is omitted and the
`RETURN` writes to `v_s_2`; the code does not collapse (the
`assignment_pattern` lookahead requires a `t<n>` source), keeps the copy
line, and writes the return value to the call target `v_r_1`. -/
theorem c6_vtarget_counterexample :
    inlineCalls fReg vTargetCallIR = .ok vTargetCallOut ∧
    "v_s_2 = v_r_1".toList ∈ vTargetCallOut ∧
    vTargetCallOut[1]? = some "v_r_1 = t1".toList := by
  decide

/-- Witness for claim C6's theorem: the collapsing branch on the
repository's `test_simple_function_call` input. -/
theorem c6_peephole_collapse_witness :
    inlineGo addReg 0
      ["t2 = CALL v_add_1(v_p_7, v_q_8)".toList, "v_result_9 = t2".toList,
        "STOP".toList] =
      (inlineGo addReg 1 ["STOP".toList]).map
        (fun o => paramAssignments addInfo.params (parseArgs "v_p_7, v_q_8".toList) ++
          adaptBody addInfo.bodyIR (some "v_result_9".toList) 1 ++ o) :=
  (@c6_peephole_collapse addReg 0 "t2 = CALL v_add_1(v_p_7, v_q_8)".toList
      "t2".toList "v_add_1".toList "v_p_7, v_q_8".toList addInfo
      (by decide) (by decide) (by decide) (by decide)).1
    "v_result_9 = t2".toList ["STOP".toList] "v_result_9".toList (by decide)

/-- Witness for claim C7's theorem: a call to an unregistered callee stays
unchanged in front of the processed remainder. -/
theorem c7_unknown_callee_kept_witness :
    inlineGo addReg 0 ["t1 = CALL v_undefined_func_99(1)".toList, "STOP".toList] =
      (inlineGo addReg 0 ["STOP".toList]).map
        (fun o => "t1 = CALL v_undefined_func_99(1)".toList :: o) :=
  @c7_unknown_callee_kept addReg 0 "t1 = CALL v_undefined_func_99(1)".toList
    ["STOP".toList] "t1".toList "v_undefined_func_99".toList "1".toList
    (by decide) (by decide)

/-- Witness for claim C10's theorem: the label `L7`, referenced by a `GOTO`
but defined nowhere in the body, survives both inline instances 1 and 2
unchanged. -/
theorem c10_undefined_label_kept_witness :
    (makeLabelsUnique ["GOTO L7".toList, "REM L3".toList] 1)[0]? =
        some "GOTO L7".toList ∧
    (makeLabelsUnique ["GOTO L7".toList, "REM L3".toList] 2)[0]? =
        some "GOTO L7".toList :=
  ⟨@c10_undefined_label_kept ["GOTO L7".toList, "REM L3".toList] 1 0
      "GOTO L7".toList "GOTO".toList "L7".toList (by decide) (by decide) (by decide),
   @c10_undefined_label_kept ["GOTO L7".toList, "REM L3".toList] 2 0
      "GOTO L7".toList "GOTO".toList "L7".toList (by decide) (by decide) (by decide)⟩

/-! Claims C2, C9, C4, C3. -/

/-- Claim C2: a do-until loop whose condition is an `and` of two accepted
comparisons passes semantic analysis, yet code generation raises
`CodeGenError` for the `and` operator instead of reducing the condition to
a single place — the analyzer/codegen contract is violated on an input
that passed analysis. -/
theorem c2_dountil_codegen_error :
    (analyze doUntilAndProg).isOk = true ∧
    pipelineIR doUntilAndProg = some (.error (.opOnlyInConditions "and")) := by
  exact ⟨rfl, rfl⟩

/-- Claim C9: for `glob { x } main { if (x > 0) { x = 1 } }` the generated
IR is exactly `ifThenIR`, which contains, in order, the conditional jump
`IF v_x_1 > t1 THEN L1`, then `GOTO L2`, then `REM L1`, then the
assignment `v_x_1 = t2` to the unique name of `x`, and `REM L2` as the
last generated line of the construct. -/
theorem c9_if_then_ir :
    pipelineIR ifThenProg = some (.ok ifThenIR) ∧
    ifThenIR[1]? = some ("IF ".toList ++ "v_x_1".toList ++ " > ".toList ++
      "t1".toList ++ " THEN ".toList ++ "L1".toList) ∧
    ifThenIR[2]? = some ("GOTO ".toList ++ "L2".toList) ∧
    ifThenIR[3]? = some ("REM ".toList ++ "L1".toList) ∧
    ifThenIR[5]? = some ("v_x_1".toList ++ " = ".toList ++ "t2".toList) ∧
    ifThenIR.getLast? = some ("REM ".toList ++ "L2".toList) := by
  exact ⟨rfl, rfl, rfl, rfl, rfl, rfl⟩

/-- Counterexample to claim C4 as stated: a program whose main body reads
the procedure name `p` through a variable-reference atom (`x = p`) passes
semantic analysis without any error, though the claim requires a
`KindMismatch` failure for that use. -/
theorem c4_atom_kind_counterexample :
    (analyze atomKindProg).isOk = true ∧ analyzeErr atomKindProg = none := by
  exact ⟨rfl, rfl⟩

/-- Claim C4 (amended): resolving a name whose kind does not match the use
fails for function calls (`not a function`), procedure calls (`not a
procedure`) and assignment targets (whose declared type is then not
numeric, as procedures and functions are declared type-less); but a
variable-reference atom performs no kind check at all and accepts a name
of any kind as a numeric expression. -/
theorem c4_kind_checks :
    (∀ (st : SymTab) (v : VarNode) (info : SymbolInfo),
      lookupSym st v.name = some info →
      visitAtomA st (.var v) =
        .ok (.var { v with symbolInfo := some info }, "numeric")) ∧
    (∀ (st : SymTab) (c : FunctionCallNode) (info : SymbolInfo),
      lookupSym st c.name.name = some info → info.kind ≠ "func" →
      visitFunctionCallA st c = .error (.notAFunction c.name.name info.kind)) ∧
    (∀ (st : SymTab) (n : VarNode) (args : List AtomNode) (info : SymbolInfo),
      lookupSym st n.name = some info → info.kind ≠ "proc" →
      visitInstrA st (.procCall n args) = .error (.notAProcedure n.name info.kind)) ∧
    (∀ (st : SymTab) (v : VarNode) (rhs : RhsNode) (info : SymbolInfo),
      lookupSym st v.name = some info → info.declType ≠ some "numeric" →
      visitInstrA st (.assign v rhs) = .error (.assignToNonNumeric v.name)) := by
  refine ⟨?_, ?_, ?_, ?_⟩
  · intro st v info h
    simp [visitAtomA, h]
  · intro st c info h hk
    simp [visitFunctionCallA, h, hk]
  · intro st n args info h hk
    simp [visitInstrA, h, hk]
  · intro st v rhs info h hd
    simp [visitInstrA, h, hd]

/-- Witness for claim C4's theorem on a concrete table holding a variable
`x`, a procedure `p` and a function `g`. -/
theorem c4_kind_checks_witness :
    visitAtomA stW (.var ⟨"p", none⟩) =
      .ok (.var ⟨"p", some infoPW⟩, "numeric") ∧
    visitFunctionCallA stW ⟨⟨"p", none⟩, []⟩ =
      .error (.notAFunction "p" "proc") ∧
    visitInstrA stW (.procCall ⟨"g", none⟩ []) =
      .error (.notAProcedure "g" "func") ∧
    visitInstrA stW (.assign ⟨"p", none⟩ (.atom (.num 1))) =
      .error (.assignToNonNumeric "p") :=
  ⟨c4_kind_checks.1 stW ⟨"p", none⟩ infoPW (by decide),
   c4_kind_checks.2.1 stW ⟨⟨"p", none⟩, []⟩ infoPW (by decide) (by decide),
   c4_kind_checks.2.2.1 stW ⟨"g", none⟩ [] infoGW (by decide) (by decide),
   c4_kind_checks.2.2.2 stW ⟨"p", none⟩ (.atom (.num 1)) infoPW (by decide) (by decide)⟩

/-- Counterexample to claim C3 as stated: lowering
`if (not (x > 0)) { x = 1 } else { x = 2 }` emits a conditional jump whose
target is `L2` — the separately allocated else label, which the claim says
does not exist — while the then label is `L1` and the exit label (last
`REM`) is `L3`; `L2` is referenced but never defined. -/
theorem c3_else_label_counterexample :
    pipelineIR ifNotElseProg = some (.ok ifNotElseIR) ∧
    "IF v_x_1 > t1 THEN L2".toList ∈ ifNotElseIR ∧
    ("REM L2".toList ∉ ifNotElseIR) ∧
    ifNotElseIR.getLast? = some "REM L3".toList := by
  refine ⟨rfl, by decide, by decide, rfl⟩

/-- Claim C3 (amended): lowering `If(cond, thenBody, elseBody)` allocates
three labels `then`, `else`, `exit` (in this order, from the label
counter); the condition jump generator is invoked with `then` as the true
target and the else label — not `exit` — as the false target; then the
else body is emitted in the fallthrough path, `GOTO exit`, `REM then`, the
then body, and `REM exit`, in that order. -/
theorem c3_if_else_lowering (cond : TermNode) (tb eb : Algorithm) (g gj ge gt : CG)
    (hj : cgCondJumpT ⟨g.ir, g.tempCounter, g.labelCounter + 3⟩ cond
      ('L' :: natChars (g.labelCounter + 1)) ('L' :: natChars (g.labelCounter + 2)) =
      .ok gj)
    (he : cgAlgo gj eb = .ok ge)
    (ht : cgAlgo (emit (emit ge ("GOTO ".toList ++ 'L' :: natChars (g.labelCounter + 3)))
      ("REM ".toList ++ 'L' :: natChars (g.labelCounter + 1))) tb = .ok gt) :
    cgInstr g (.ifBranch cond tb (.some eb)) =
      .ok (emit gt ("REM ".toList ++ 'L' :: natChars (g.labelCounter + 3))) := by
  show (do
    let g4 ← cgCondJumpT ⟨g.ir, g.tempCounter, g.labelCounter + 3⟩ cond
      ('L' :: natChars (g.labelCounter + 1)) ('L' :: natChars (g.labelCounter + 2))
    let g5 ← cgAlgo g4 eb
    let g6 := emit g5 ("GOTO ".toList ++ 'L' :: natChars (g.labelCounter + 3))
    let g7 := emit g6 ("REM ".toList ++ 'L' :: natChars (g.labelCounter + 1))
    let g8 ← cgAlgo g7 tb
    pure (emit g8 ("REM ".toList ++ 'L' :: natChars (g.labelCounter + 3)))) =
    .ok (emit gt ("REM ".toList ++ 'L' :: natChars (g.labelCounter + 3)))
  rw [hj]
  show (do
    let g5 ← cgAlgo gj eb
    let g6 := emit g5 ("GOTO ".toList ++ 'L' :: natChars (g.labelCounter + 3))
    let g7 := emit g6 ("REM ".toList ++ 'L' :: natChars (g.labelCounter + 1))
    let g8 ← cgAlgo g7 tb
    pure (emit g8 ("REM ".toList ++ 'L' :: natChars (g.labelCounter + 3)))) = _
  rw [he]
  show (do
    let g8 ← cgAlgo (emit (emit ge ("GOTO ".toList ++ 'L' :: natChars (g.labelCounter + 3)))
      ("REM ".toList ++ 'L' :: natChars (g.labelCounter + 1))) tb
    pure (emit g8 ("REM ".toList ++ 'L' :: natChars (g.labelCounter + 3)))) = _
  rw [ht]
  rfl

/-- Witness for claim C3's theorem: lowering `if (x > 0) { x = 1 } else
{ x = 2 }` from a fresh generator state. -/
theorem c3_if_else_lowering_witness :
    cgInstr CG.start (.ifBranch condXW thenXW (.some elseXW)) =
      .ok (emit ⟨["t1 = 0".toList, "IF v_x_1 > t1 THEN L1".toList,
        "t2 = 2".toList, "v_x_1 = t2".toList, "GOTO L3".toList, "REM L1".toList,
        "t3 = 1".toList, "v_x_1 = t3".toList], 3, 3⟩
        ("REM ".toList ++ 'L' :: natChars (0 + 3))) :=
  c3_if_else_lowering condXW thenXW elseXW CG.start
    ⟨["t1 = 0".toList, "IF v_x_1 > t1 THEN L1".toList], 1, 3⟩
    ⟨["t1 = 0".toList, "IF v_x_1 > t1 THEN L1".toList, "t2 = 2".toList,
      "v_x_1 = t2".toList], 2, 3⟩
    ⟨["t1 = 0".toList, "IF v_x_1 > t1 THEN L1".toList, "t2 = 2".toList,
      "v_x_1 = t2".toList, "GOTO L3".toList, "REM L1".toList, "t3 = 1".toList,
      "v_x_1 = t3".toList], 3, 3⟩
    (by decide) (by decide) (by decide)

/-! Claim C1: the global name-clash check. -/

theorem except_bind_ok {α β ε : Type} (a : α) (f : α → Except ε β) :
    (Except.ok a >>= f) = f a := rfl

theorem except_bind_err {α β ε : Type} (e : ε) (f : α → Except ε β) :
    ((Except.error e : Except ε α) >>= f) = .error e := rfl

theorem alookup_isSome_of_mem {α β : Type} [DecidableEq α] :
    ∀ (m : List (α × β)) (k : α), k ∈ m.map Prod.fst →
    (alookup m k).isSome = true := by
  intro m
  induction m with
  | nil => intro k h; simp at h
  | cons p m ih =>
    intro k h
    simp only [List.map_cons, List.mem_cons] at h
    by_cases hp : p.1 = k
    · simp [alookup, hp]
    · rcases h with h | h
      · exact absurd h.symm hp
      · simp only [alookup, hp, if_false]
        exact ih k h

theorem declare_ok_shape {st : SymTab} {n k : String} {t : Option String}
    {info : SymbolInfo} {st' : SymTab}
    (h : declare st n k t = .ok (info, st')) :
    ∃ curr rest, st.scopes = curr :: rest ∧
      st'.scopes = ((n, info) :: curr) :: rest ∧ n ∉ curr.map Prod.fst := by
  unfold declare at h
  cases hs : st.scopes with
  | nil => rw [hs] at h; simp at h
  | cons curr rest =>
    rw [hs] at h
    by_cases hdup : (alookup curr n).isSome
    · simp [hdup] at h
    · simp only [hdup, Bool.false_eq_true, if_false, genUniqueName,
        Except.ok.injEq, Prod.mk.injEq] at h
      obtain ⟨h1, h2⟩ := h
      subst h1
      refine ⟨curr, rest, rfl, ?_, ?_⟩
      · rw [← h2]
      · intro hmem
        exact hdup (alookup_isSome_of_mem curr n hmem)

theorem declare_error_shape {st : SymTab} {n k : String} {t : Option String}
    {e : AErr} (hne : st.scopes ≠ []) (h : declare st n k t = .error e) :
    e = .duplicateDeclaration n := by
  unfold declare at h
  cases hs : st.scopes with
  | nil => exact absurd hs hne
  | cons curr rest =>
    rw [hs] at h
    by_cases hdup : (alookup curr n).isSome
    · simp only [hdup, if_true, Except.error.injEq] at h
      exact h.symm
    · simp [hdup, genUniqueName] at h

theorem declare_error_of_mem {st : SymTab} (n k : String) (t : Option String)
    (h : n ∈ topNames st) :
    declare st n k t = .error (.duplicateDeclaration n) := by
  unfold declare
  unfold topNames at h
  cases hs : st.scopes with
  | nil => rw [hs] at h; simp at h
  | cons curr rest =>
    rw [hs] at h
    have hh : n ∈ curr.map Prod.fst := h
    have := alookup_isSome_of_mem curr n hh
    simp [this]

theorem topNames_declare {st : SymTab} {n k : String} {t : Option String}
    {info : SymbolInfo} {st' : SymTab}
    (h : declare st n k t = .ok (info, st')) :
    topNames st' = n :: topNames st ∧ st'.scopes ≠ [] ∧ n ∉ topNames st := by
  obtain ⟨curr, rest, h1, h2, h3⟩ := declare_ok_shape h
  refine ⟨?_, by simp [h2], ?_⟩
  · unfold topNames
    rw [h1, h2]
    rfl
  · intro hm
    apply h3
    unfold topNames at hm
    rw [h1] at hm
    exact hm

theorem declareVarListA_err : ∀ (vs : List VarNode) (st : SymTab)
    (seen : List String) {e : AErr}, st.scopes ≠ [] →
    declareVarListA st vs seen = .error e → isDuplicateFamilyErr e = true := by
  intro vs
  induction vs with
  | nil => intro st seen e _ h; simp [declareVarListA] at h
  | cons v vs ih =>
    intro st seen e hne h
    unfold declareVarListA at h
    by_cases hm : v.name ∈ seen
    · rw [if_pos hm] at h
      simp only [Except.error.injEq] at h
      rw [← h]
      rfl
    · rw [if_neg hm] at h
      cases hd : declare st v.name "var" (some "numeric") with
      | error e' =>
        rw [hd, except_bind_err] at h
        simp only [Except.error.injEq] at h
        rw [← h, declare_error_shape hne hd]
        rfl
      | ok r =>
        obtain ⟨i, st1⟩ := r
        rw [hd, except_bind_ok] at h
        exact ih st1 (v.name :: seen) (topNames_declare hd).2.1 h

theorem declareProcSigsA_err : ∀ (ds : List ProcedureDefNode) (st : SymTab)
    (seen : List String) {e : AErr}, st.scopes ≠ [] →
    declareProcSigsA st ds seen = .error e → isDuplicateFamilyErr e = true := by
  intro ds
  induction ds with
  | nil => intro st seen e _ h; simp [declareProcSigsA] at h
  | cons d ds ih =>
    intro st seen e hne h
    unfold declareProcSigsA at h
    by_cases hm : d.name.name ∈ seen
    · rw [if_pos hm] at h
      simp only [Except.error.injEq] at h
      rw [← h]
      rfl
    · rw [if_neg hm] at h
      cases hd : declare st d.name.name "proc" none with
      | error e' =>
        rw [hd, except_bind_err] at h
        simp only [Except.error.injEq] at h
        rw [← h, declare_error_shape hne hd]
        rfl
      | ok r =>
        obtain ⟨i, st1⟩ := r
        rw [hd, except_bind_ok] at h
        exact ih st1 (d.name.name :: seen) (topNames_declare hd).2.1 h

theorem declareVarListA_mem : ∀ (vs : List VarNode) (st : SymTab)
    (seen : List String) (st' : SymTab), declareVarListA st vs seen = .ok st' →
    (∀ v ∈ vs, v.name ∈ topNames st') ∧
    (∀ n, n ∈ topNames st → n ∈ topNames st') := by
  intro vs
  induction vs with
  | nil =>
    intro st seen st' h
    simp only [declareVarListA, Except.ok.injEq] at h
    subst h
    exact ⟨by simp, fun n hn => hn⟩
  | cons v vs ih =>
    intro st seen st' h
    unfold declareVarListA at h
    by_cases hm : v.name ∈ seen
    · rw [if_pos hm] at h
      simp at h
    · rw [if_neg hm] at h
      cases hd : declare st v.name "var" (some "numeric") with
      | error e' => rw [hd, except_bind_err] at h; simp at h
      | ok r =>
        obtain ⟨i, st1⟩ := r
        rw [hd, except_bind_ok] at h
        obtain ⟨hall, hmono⟩ := ih st1 (v.name :: seen) st' h
        have htop := (topNames_declare hd).1
        refine ⟨?_, ?_⟩
        · intro w hw
          rcases List.mem_cons.mp hw with rfl | hw
          · exact hmono w.name (by rw [htop]; simp)
          · exact hall w hw
        · intro n hn
          exact hmono n (by rw [htop]; simp [hn])

theorem declareProcSigsA_mem : ∀ (ds : List ProcedureDefNode) (st : SymTab)
    (seen : List String) (st' : SymTab), declareProcSigsA st ds seen = .ok st' →
    (∀ d ∈ ds, d.name.name ∈ topNames st') ∧
    (∀ n, n ∈ topNames st → n ∈ topNames st') := by
  intro ds
  induction ds with
  | nil =>
    intro st seen st' h
    simp only [declareProcSigsA, Except.ok.injEq] at h
    subst h
    exact ⟨by simp, fun n hn => hn⟩
  | cons d ds ih =>
    intro st seen st' h
    unfold declareProcSigsA at h
    by_cases hm : d.name.name ∈ seen
    · rw [if_pos hm] at h
      simp at h
    · rw [if_neg hm] at h
      cases hd : declare st d.name.name "proc" none with
      | error e' => rw [hd, except_bind_err] at h; simp at h
      | ok r =>
        obtain ⟨i, st1⟩ := r
        rw [hd, except_bind_ok] at h
        obtain ⟨hall, hmono⟩ := ih st1 (d.name.name :: seen) st' h
        have htop := (topNames_declare hd).1
        refine ⟨?_, ?_⟩
        · intro w hw
          rcases List.mem_cons.mp hw with rfl | hw
          · exact hmono w.name.name (by rw [htop]; simp)
          · exact hall w hw
        · intro n hn
          exact hmono n (by rw [htop]; simp [hn])

theorem declareProcSigsA_err_of_mem : ∀ (ds : List ProcedureDefNode) (st : SymTab)
    (seen : List String), st.scopes ≠ [] →
    (∃ d ∈ ds, d.name.name ∈ topNames st) →
    ∃ e, declareProcSigsA st ds seen = .error e ∧ isDuplicateFamilyErr e = true := by
  intro ds
  induction ds with
  | nil =>
    intro st seen _ hw
    obtain ⟨d, hd, _⟩ := hw
    simp at hd
  | cons d ds ih =>
    intro st seen hne hw
    by_cases hm : d.name.name ∈ seen
    · refine ⟨.duplicateProcedureDecl d.name.name, ?_, rfl⟩
      unfold declareProcSigsA
      rw [if_pos hm]
    · cases hd : declare st d.name.name "proc" none with
      | error e' =>
        refine ⟨e', ?_, ?_⟩
        · unfold declareProcSigsA
          rw [if_neg hm, hd, except_bind_err]
        · rw [declare_error_shape hne hd]
          rfl
      | ok r =>
        obtain ⟨i, st1⟩ := r
        obtain ⟨d0, hd0, hmem⟩ := hw
        rcases List.mem_cons.mp hd0 with rfl | hd0
        · exact absurd hd (by rw [declare_error_of_mem d0.name.name "proc" none hmem]; simp)
        · have htop := topNames_declare hd
          obtain ⟨e, he, hdup⟩ := ih st1 (d.name.name :: seen) htop.2.1
            ⟨d0, hd0, by rw [htop.1]; simp [hmem]⟩
          refine ⟨e, ?_, hdup⟩
          unfold declareProcSigsA
          rw [if_neg hm, hd, except_bind_ok]
          exact he

theorem declareFuncSigsA_err_of_mem : ∀ (ds : List FunctionDefNode) (st : SymTab)
    (seen : List String), st.scopes ≠ [] →
    (∃ d ∈ ds, d.name.name ∈ topNames st) →
    ∃ e, declareFuncSigsA st ds seen = .error e ∧ isDuplicateFamilyErr e = true := by
  intro ds
  induction ds with
  | nil =>
    intro st seen _ hw
    obtain ⟨d, hd, _⟩ := hw
    simp at hd
  | cons d ds ih =>
    intro st seen hne hw
    by_cases hm : d.name.name ∈ seen
    · refine ⟨.duplicateFunctionDecl d.name.name, ?_, rfl⟩
      unfold declareFuncSigsA
      rw [if_pos hm]
    · cases hd : declare st d.name.name "func" none with
      | error e' =>
        refine ⟨e', ?_, ?_⟩
        · unfold declareFuncSigsA
          rw [if_neg hm, hd, except_bind_err]
        · rw [declare_error_shape hne hd]
          rfl
      | ok r =>
        obtain ⟨i, st1⟩ := r
        obtain ⟨d0, hd0, hmem⟩ := hw
        rcases List.mem_cons.mp hd0 with rfl | hd0
        · exact absurd hd (by rw [declare_error_of_mem d0.name.name "func" none hmem]; simp)
        · have htop := topNames_declare hd
          obtain ⟨e, he, hdup⟩ := ih st1 (d.name.name :: seen) htop.2.1
            ⟨d0, hd0, by rw [htop.1]; simp [hmem]⟩
          refine ⟨e, ?_, hdup⟩
          unfold declareFuncSigsA
          rw [if_neg hm, hd, except_bind_ok]
          exact he

theorem declareVarListA_tail : ∀ (vs : List VarNode) (st : SymTab)
    (seen : List String) (st' : SymTab) (curr : Frame) (rest : List Frame),
    st.scopes = curr :: rest → declareVarListA st vs seen = .ok st' →
    ∃ curr', st'.scopes = curr' :: rest := by
  intro vs
  induction vs with
  | nil =>
    intro st seen st' curr rest hs h
    simp only [declareVarListA, Except.ok.injEq] at h
    subst h
    exact ⟨curr, hs⟩
  | cons v vs ih =>
    intro st seen st' curr rest hs h
    unfold declareVarListA at h
    by_cases hm : v.name ∈ seen
    · rw [if_pos hm] at h
      simp at h
    · rw [if_neg hm] at h
      cases hd : declare st v.name "var" (some "numeric") with
      | error e' => rw [hd, except_bind_err] at h; simp at h
      | ok r =>
        obtain ⟨i, st1⟩ := r
        rw [hd, except_bind_ok] at h
        obtain ⟨c, r0, h1, h2, _⟩ := declare_ok_shape hd
        rw [hs] at h1
        injection h1 with hc hr
        subst hc
        subst hr
        exact ih st1 (v.name :: seen) st' _ rest h2 h

theorem declareProcSigsA_tail : ∀ (ds : List ProcedureDefNode) (st : SymTab)
    (seen : List String) (st' : SymTab) (curr : Frame) (rest : List Frame),
    st.scopes = curr :: rest → declareProcSigsA st ds seen = .ok st' →
    ∃ curr', st'.scopes = curr' :: rest := by
  intro ds
  induction ds with
  | nil =>
    intro st seen st' curr rest hs h
    simp only [declareProcSigsA, Except.ok.injEq] at h
    subst h
    exact ⟨curr, hs⟩
  | cons d ds ih =>
    intro st seen st' curr rest hs h
    unfold declareProcSigsA at h
    by_cases hm : d.name.name ∈ seen
    · rw [if_pos hm] at h
      simp at h
    · rw [if_neg hm] at h
      cases hd : declare st d.name.name "proc" none with
      | error e' => rw [hd, except_bind_err] at h; simp at h
      | ok r =>
        obtain ⟨i, st1⟩ := r
        rw [hd, except_bind_ok] at h
        obtain ⟨c, r0, h1, h2, _⟩ := declare_ok_shape hd
        rw [hs] at h1
        injection h1 with hc hr
        subst hc
        subst hr
        exact ih st1 (d.name.name :: seen) st' _ rest h2 h

theorem declareFuncSigsA_tail : ∀ (ds : List FunctionDefNode) (st : SymTab)
    (seen : List String) (st' : SymTab) (curr : Frame) (rest : List Frame),
    st.scopes = curr :: rest → declareFuncSigsA st ds seen = .ok st' →
    ∃ curr', st'.scopes = curr' :: rest := by
  intro ds
  induction ds with
  | nil =>
    intro st seen st' curr rest hs h
    simp only [declareFuncSigsA, Except.ok.injEq] at h
    subst h
    exact ⟨curr, hs⟩
  | cons d ds ih =>
    intro st seen st' curr rest hs h
    unfold declareFuncSigsA at h
    by_cases hm : d.name.name ∈ seen
    · rw [if_pos hm] at h
      simp at h
    · rw [if_neg hm] at h
      cases hd : declare st d.name.name "func" none with
      | error e' => rw [hd, except_bind_err] at h; simp at h
      | ok r =>
        obtain ⟨i, st1⟩ := r
        rw [hd, except_bind_ok] at h
        obtain ⟨c, r0, h1, h2, _⟩ := declare_ok_shape hd
        rw [hs] at h1
        injection h1 with hc hr
        subst hc
        subst hr
        exact ih st1 (d.name.name :: seen) st' _ rest h2 h

theorem globalPhase_empty_eq (p : ProgramNode) :
    globalPhase SymTab.empty p =
      (declareVarListA ⟨[[], []], []⟩ p.globals [] >>= fun st3 =>
       declareProcSigsA st3 p.procs [] >>= fun st4 =>
       declareFuncSigsA st4 p.funcs [] >>= fun st5 => Except.ok st5) := rfl

theorem analyze_err_of_globalPhase {p : ProgramNode} {e : AErr}
    (h : globalPhase SymTab.empty p = .error e) : analyze p = .error e := by
  unfold analyze visitProgramA
  rw [h]
  rfl

theorem globalPhase_shape {p : ProgramNode} {st' : SymTab}
    (h : globalPhase SymTab.empty p = .ok st') : ∃ f, st'.scopes = [f, []] := by
  rw [globalPhase_empty_eq] at h
  cases h3 : declareVarListA ⟨[[], []], []⟩ p.globals [] with
  | error e => rw [h3, except_bind_err] at h; simp at h
  | ok st3 =>
    rw [h3, except_bind_ok] at h
    obtain ⟨c3, hc3⟩ := declareVarListA_tail p.globals _ [] st3 [] [[]] rfl h3
    cases h4 : declareProcSigsA st3 p.procs [] with
    | error e => rw [h4, except_bind_err] at h; simp at h
    | ok st4 =>
      rw [h4, except_bind_ok] at h
      obtain ⟨c4, hc4⟩ := declareProcSigsA_tail p.procs st3 [] st4 c3 [[]] hc3 h4
      cases h5 : declareFuncSigsA st4 p.funcs [] with
      | error e => rw [h5, except_bind_err] at h; simp at h
      | ok st5 =>
        rw [h5, except_bind_ok] at h
        simp only [Except.ok.injEq] at h
        subst h
        exact declareFuncSigsA_tail p.funcs st4 [] st5 c4 [[]] hc4 h5

theorem check_ok_of_shape (st : SymTab) (f : Frame) (h : st.scopes = [f, []]) :
    checkNoGlobalNameClashes st = .ok () := by
  obtain ⟨sc, nc⟩ := st
  have h' : sc = [f, []] := h
  subst h'
  rfl

/-- Claim C1.  Corrected: the clash check `check_no_global_name_clashes`
reads `_scopes[0]`, the bottom frame of the stack, which is always empty
because `_visit_program` pushes a second "Global" frame before declaring
anything; so the check itself passes vacuously after every successful
global phase (second conjunct).  A program whose globals do contain two
entities of different kinds with the same original name is still rejected,
but by the duplicate-declaration family of errors raised at declaration
time — never with a `GlobalNameClash` (first conjunct). -/
theorem c1_global_clash_check :
    (∀ p : ProgramNode, hasGlobalKindClash p →
      ∃ e, analyze p = .error e ∧ isDuplicateFamilyErr e = true) ∧
    (∀ (p : ProgramNode) (st : SymTab), globalPhase SymTab.empty p = .ok st →
      checkNoGlobalNameClashes st = .ok ()) := by
  constructor
  · intro p hclash
    have hne2 : (⟨[[], []], []⟩ : SymTab).scopes ≠ [] := List.cons_ne_nil _ _
    cases h3 : declareVarListA ⟨[[], []], []⟩ p.globals [] with
    | error e =>
      refine ⟨e, ?_, declareVarListA_err p.globals _ [] hne2 h3⟩
      apply analyze_err_of_globalPhase
      rw [globalPhase_empty_eq, h3, except_bind_err]
    | ok st3 =>
      obtain ⟨c3, hc3⟩ := declareVarListA_tail p.globals _ [] st3 [] [[]] rfl h3
      have hne3 : st3.scopes ≠ [] := by rw [hc3]; exact List.cons_ne_nil _ _
      have hall3 := (declareVarListA_mem p.globals _ [] st3 h3).1
      rcases hclash with ⟨n, hv, hp⟩ | ⟨n, hv, hf⟩ | ⟨n, hf, hp⟩
      · obtain ⟨v, hvmem, hvname⟩ := List.mem_map.mp hv
        obtain ⟨d, hdmem, hdname⟩ := List.mem_map.mp hp
        have hntop : n ∈ topNames st3 := hvname ▸ hall3 v hvmem
        obtain ⟨e, herr, hdup⟩ := declareProcSigsA_err_of_mem p.procs st3 [] hne3
          ⟨d, hdmem, hdname.symm ▸ hntop⟩
        refine ⟨e, ?_, hdup⟩
        apply analyze_err_of_globalPhase
        rw [globalPhase_empty_eq, h3, except_bind_ok, herr, except_bind_err]
      · obtain ⟨v, hvmem, hvname⟩ := List.mem_map.mp hv
        obtain ⟨d, hdmem, hdname⟩ := List.mem_map.mp hf
        have hntop : n ∈ topNames st3 := hvname ▸ hall3 v hvmem
        cases h4 : declareProcSigsA st3 p.procs [] with
        | error e =>
          refine ⟨e, ?_, declareProcSigsA_err p.procs st3 [] hne3 h4⟩
          apply analyze_err_of_globalPhase
          rw [globalPhase_empty_eq, h3, except_bind_ok, h4, except_bind_err]
        | ok st4 =>
          obtain ⟨c4, hc4⟩ := declareProcSigsA_tail p.procs st3 [] st4 c3 [[]] hc3 h4
          have hne4 : st4.scopes ≠ [] := by rw [hc4]; exact List.cons_ne_nil _ _
          have hmono4 := (declareProcSigsA_mem p.procs st3 [] st4 h4).2
          obtain ⟨e, herr, hdup⟩ := declareFuncSigsA_err_of_mem p.funcs st4 [] hne4
            ⟨d, hdmem, hdname.symm ▸ hmono4 n hntop⟩
          refine ⟨e, ?_, hdup⟩
          apply analyze_err_of_globalPhase
          rw [globalPhase_empty_eq, h3, except_bind_ok, h4, except_bind_ok, herr,
            except_bind_err]
      · obtain ⟨df, hfmem, hfname⟩ := List.mem_map.mp hf
        obtain ⟨dp, hpmem, hpname⟩ := List.mem_map.mp hp
        cases h4 : declareProcSigsA st3 p.procs [] with
        | error e =>
          refine ⟨e, ?_, declareProcSigsA_err p.procs st3 [] hne3 h4⟩
          apply analyze_err_of_globalPhase
          rw [globalPhase_empty_eq, h3, except_bind_ok, h4, except_bind_err]
        | ok st4 =>
          obtain ⟨c4, hc4⟩ := declareProcSigsA_tail p.procs st3 [] st4 c3 [[]] hc3 h4
          have hne4 : st4.scopes ≠ [] := by rw [hc4]; exact List.cons_ne_nil _ _
          have hall4 := (declareProcSigsA_mem p.procs st3 [] st4 h4).1
          have hntop4 : n ∈ topNames st4 := hpname ▸ hall4 dp hpmem
          obtain ⟨e, herr, hdup⟩ := declareFuncSigsA_err_of_mem p.funcs st4 [] hne4
            ⟨df, hfmem, hfname.symm ▸ hntop4⟩
          refine ⟨e, ?_, hdup⟩
          apply analyze_err_of_globalPhase
          rw [globalPhase_empty_eq, h3, except_bind_ok, h4, except_bind_ok, herr,
            except_bind_err]
  · intro p st h
    obtain ⟨f, hf⟩ := globalPhase_shape h
    exact check_ok_of_shape st f hf

/-- Counterexample to the original claim C1: `clashProg` declares a global
variable `compute` and a function `compute`, yet analysis fails with the
symbol table's `duplicateDeclaration` error, not with `GlobalNameClash`. -/
theorem c1_clash_counterexample :
    analyzeErr clashProg = some (.duplicateDeclaration "compute") ∧
    isGlobalClashErr (analyzeErr clashProg) = false := ⟨rfl, rfl⟩

/-- Witness for `c1_global_clash_check` at `clashProg` (first conjunct) and
at `ifThenProg` with its global-phase table `stGlobalW` (second conjunct). -/
theorem c1_global_clash_check_witness :
    (∃ e, analyze clashProg = .error e ∧ isDuplicateFamilyErr e = true) ∧
    checkNoGlobalNameClashes stGlobalW = .ok () :=
  ⟨c1_global_clash_check.1 clashProg
      (.inr (.inl ⟨"compute", by decide, by decide⟩)),
   c1_global_clash_check.2 ifThenProg stGlobalW (by rfl)⟩

end Spl
